import Mathlib

/-!
# Verification of the quantity-breaks discount app

A shallow embedding, in Lean 4, of the quantity-breaks repository: the
product-id normalization utilities, the configuration codec, the per-product
tier projection builder, the batched projection-metafield recompute, and the
three admin actions (create rule / update rule / delete rule).

Modelling conventions, used throughout:

* JavaScript numbers appearing in decoded JSON are modelled as `ℚ` (the
  floats occurring here all embed exactly into `ℚ`); a field that may be
  absent / `null` is an `Option`.  `NaN` results of parsing are `none`.
* Remote GraphQL mutations are modelled by an oracle (`Admin`), a record of
  functions from the mutation's payload to the `userErrors` list it reports
  (plus the created id for the create mutation).  Each modelled action
  returns, next to its result, the trace of remote mutations it issued, in
  order.  Read-only GraphQL queries (loading the shop document, fetching
  product summaries) are not mutations and are not traced; the current
  configuration document is a parameter of each action.
* `String` equality, `trim`, `toLower` etc. stand for their JavaScript
  counterparts.
-/

namespace QuantityBreaks

/-! ## String primitives

JavaScript's `trim`, `toLowerCase`, `startsWith` and default (code-unit
lexicographic) string comparison, modelled over the character list of a
`String` so that every definition evaluates by kernel reduction. -/

/-- `s.trim()`. -/
def jsTrim (s : String) : String :=
  String.mk (((s.data.dropWhile Char.isWhitespace).reverse.dropWhile Char.isWhitespace).reverse)

/-- `s.toLowerCase()` (ASCII, which is all the sources feed it). -/
def jsToLower (s : String) : String := String.mk (s.data.map Char.toLower)

/-- `s.startsWith(pre)`. -/
def strStartsWith (s pre : String) : Bool := pre.data.isPrefixOf s.data

/-- Lexicographic comparison of character lists (the comparison behind
JavaScript's default `Array.prototype.sort` on strings). -/
def charListLe : List Char → List Char → Bool
  | [], _ => true
  | _ :: _, [] => false
  | a :: as, b :: bs => if a = b then charListLe as bs else decide (a < b)

def strLeB (a b : String) : Bool := charListLe a.data b.data

/-! ## A stable sort

`Array.prototype.sort` is required to be stable; it is embedded as an
insertion sort (stable, and structurally recursive so that concrete runs
evaluate by kernel reduction). -/

def orderedInsertB (le : α → α → Bool) (a : α) : List α → List α
  | [] => [a]
  | b :: bs => if le a b then a :: b :: bs else b :: orderedInsertB le a bs

def insertionSortB (le : α → α → Bool) : List α → List α
  | [] => []
  | a :: as => orderedInsertB le a (insertionSortB le as)

theorem orderedInsertB_perm (le : α → α → Bool) (a : α) :
    ∀ (l : List α), List.Perm (orderedInsertB le a l) (a :: l)
  | [] => List.Perm.refl _
  | b :: bs => by
    rw [orderedInsertB]
    split
    · exact List.Perm.refl _
    · exact ((orderedInsertB_perm le a bs).cons b).trans (List.Perm.swap a b bs)

theorem insertionSortB_perm (le : α → α → Bool) :
    ∀ (l : List α), List.Perm (insertionSortB le l) l
  | [] => List.Perm.refl _
  | a :: as =>
    (orderedInsertB_perm le a (insertionSortB le as)).trans
      ((insertionSortB_perm le as).cons a)

theorem mem_insertionSortB {le : α → α → Bool} {x : α} {l : List α} :
    x ∈ insertionSortB le l ↔ x ∈ l :=
  (insertionSortB_perm le l).mem_iff

theorem sorted_orderedInsertB (le : α → α → Bool)
    (htrans : ∀ (a b c : α), le a b → le b c → le a c)
    (htotal : ∀ (a b : α), le a b || le b a) (a : α) :
    ∀ (l : List α), l.Pairwise (fun x y => le x y = true) →
      (orderedInsertB le a l).Pairwise (fun x y => le x y = true)
  | [] => by
    intro _
    simp [orderedInsertB]
  | b :: bs => by
    intro hp
    rw [orderedInsertB]
    rw [List.pairwise_cons] at hp
    split
    case isTrue hab =>
      rw [List.pairwise_cons]
      refine ⟨?_, List.pairwise_cons.mpr hp⟩
      intro x hx
      rcases List.mem_cons.mp hx with h | h
      · rw [h]
        exact hab
      · exact htrans a b x hab (hp.1 x h)
    case isFalse hab =>
      have hba : le b a := by
        rcases Bool.or_eq_true_iff.mp (htotal a b) with h | h
        · exact absurd h hab
        · exact h
      rw [List.pairwise_cons]
      refine ⟨?_, sorted_orderedInsertB le htrans htotal a bs hp.2⟩
      intro x hx
      rcases List.mem_cons.mp ((orderedInsertB_perm le a bs).mem_iff.mp hx) with h | h
      · rw [h]
        exact hba
      · exact hp.1 x h

theorem sorted_insertionSortB (le : α → α → Bool)
    (htrans : ∀ (a b c : α), le a b → le b c → le a c)
    (htotal : ∀ (a b : α), le a b || le b a) :
    ∀ (l : List α), (insertionSortB le l).Pairwise (fun x y => le x y = true)
  | [] => by simp [insertionSortB]
  | a :: as =>
    sorted_orderedInsertB le htrans htotal a _ (sorted_insertionSortB le htrans htotal as)

theorem filter_orderedInsertB (le : α → α → Bool) (p : α → Bool)
    (tied : ∀ a b, p a → p b → le a b) (a : α) :
    ∀ (l : List α),
      (orderedInsertB le a l).filter p = if p a then a :: l.filter p else l.filter p
  | [] => by
    rw [orderedInsertB]
    by_cases h : p a
    · simp [h]
    · simp [h]
  | b :: bs => by
    rw [orderedInsertB]
    split
    case isTrue hab =>
      by_cases h : p a
      · simp [List.filter_cons, h]
      · simp [List.filter_cons, h]
    case isFalse hab =>
      by_cases hpa : p a = true
      · have hpb : p b = false := by
          by_contra hpb
          exact hab (tied a b hpa (Bool.of_not_eq_false hpb))
        rw [List.filter_cons_of_neg (by simp [hpb]), filter_orderedInsertB le p tied a bs,
          if_pos hpa, if_pos hpa, List.filter_cons_of_neg (by simp [hpb])]
      · rw [if_neg hpa, List.filter_cons, filter_orderedInsertB le p tied a bs, if_neg hpa,
          List.filter_cons]

/-- Stability of the embedded sort: sorting commutes with selecting any
class of pairwise-tied elements, i.e. tied elements keep their submitted
relative order. -/
theorem filter_insertionSortB (le : α → α → Bool) (p : α → Bool)
    (tied : ∀ a b, p a → p b → le a b) :
    ∀ (l : List α), (insertionSortB le l).filter p = l.filter p
  | [] => rfl
  | a :: as => by
    rw [insertionSortB, filter_orderedInsertB le p tied a _,
      filter_insertionSortB le p tied as, List.filter_cons]

/-! ## Identifier normalization (quantity-breaks.server, also duplicated in the rule route) -/

/-- The canonical product-id prefix `gid://shopify/Product/`. -/
def productGidPrefix : String := "gid://shopify/Product/"

/-- A candidate product reference: a bare string, an object carrying an `id`
string field, or any other value (object without a string id, null, …). -/
inductive ProductRef where
  | str (s : String)
  | obj (id : String)
  | other
deriving DecidableEq

/-- `normalizeProductId`: returns the id when it carries the canonical
prefix, else the empty string. -/
def normalizeProductId : ProductRef → String
  | .str s => if strStartsWith s productGidPrefix then s else ""
  | .obj id => if strStartsWith id productGidPrefix then id else ""
  | .other => ""

/-- Deduplication against an already-seen set, structurally. -/
def dedupFirstSeenAux (seen : List String) : List String → List String
  | [] => []
  | x :: xs =>
    if x ∈ seen then dedupFirstSeenAux seen xs
    else x :: dedupFirstSeenAux (x :: seen) xs

/-- `Array.from(new Set(xs))`: deduplication keeping the first occurrence. -/
def dedupFirstSeen (l : List String) : List String := dedupFirstSeenAux [] l

/-- `normalizeProductIds`: map `normalizeProductId`, drop empties, dedup
preserving first-seen order. -/
def normalizeProductIds (products : List ProductRef) : List String :=
  dedupFirstSeen ((products.map normalizeProductId).filter (fun s => s ≠ ""))

theorem mem_dedupFirstSeenAux {y : String} :
    ∀ {l seen : List String}, y ∈ dedupFirstSeenAux seen l ↔ y ∈ l ∧ y ∉ seen
  | [], seen => by simp [dedupFirstSeenAux]
  | x :: xs, seen => by
    rw [dedupFirstSeenAux]
    by_cases hx : x ∈ seen
    · rw [if_pos hx, mem_dedupFirstSeenAux]
      constructor
      · rintro ⟨h1, h2⟩
        exact ⟨List.mem_cons_of_mem _ h1, h2⟩
      · rintro ⟨h1, h2⟩
        rcases List.mem_cons.mp h1 with h | h
        · exact absurd (h ▸ hx) h2
        · exact ⟨h, h2⟩
    · rw [if_neg hx]
      by_cases hyx : y = x
      · subst hyx
        simp [hx]
      · simp only [List.mem_cons, hyx, false_or]
        rw [mem_dedupFirstSeenAux]
        simp [hyx]

theorem mem_dedupFirstSeen {y : String} {l : List String} : y ∈ dedupFirstSeen l ↔ y ∈ l := by
  rw [dedupFirstSeen, mem_dedupFirstSeenAux]
  simp

theorem nodup_dedupFirstSeenAux :
    ∀ (l seen : List String), (dedupFirstSeenAux seen l).Nodup
  | [], seen => by simp [dedupFirstSeenAux]
  | x :: xs, seen => by
    rw [dedupFirstSeenAux]
    by_cases hx : x ∈ seen
    · rw [if_pos hx]
      exact nodup_dedupFirstSeenAux xs seen
    · rw [if_neg hx]
      refine List.nodup_cons.mpr ⟨?_, nodup_dedupFirstSeenAux xs (x :: seen)⟩
      intro hmem
      exact (mem_dedupFirstSeenAux.mp hmem).2 (List.mem_cons_self _ _)

theorem nodup_dedupFirstSeen (l : List String) : (dedupFirstSeen l).Nodup :=
  nodup_dedupFirstSeenAux l []

/-! ## Data model: decoded configuration document -/

/-- A decoded tier.  `min_quantity` / `percent_off` are the tier's raw JSON
numbers (`none` when the field is absent or `null`); `discount_id` is the
remote discount reference (`""` when absent); `products` is the legacy
per-tier product list. -/
structure Tier where
  title : String
  min_quantity : Option ℚ
  percent_off : Option ℚ
  discount_id : String
  products : List ProductRef
deriving DecidableEq

/-- A decoded rule of the configuration document. -/
structure Rule where
  title : String
  status : String
  products : List ProductRef
  tiers : List Tier
deriving DecidableEq

/-- The configuration document `{ discounts: [...] }`. -/
structure Doc where
  discounts : List Rule
deriving DecidableEq

/-- `getRuleProductIds`: the rule-level normalized product ids if non-empty,
else the first-seen-deduplicated union of the tiers' own product lists. -/
def getRuleProductIds (rule : Rule) : List String :=
  let directProductIds := normalizeProductIds rule.products
  if directProductIds ≠ [] then directProductIds
  else dedupFirstSeen (rule.tiers.flatMap (fun tier => normalizeProductIds tier.products))

/-! ## JavaScript numeric parsing helpers

`Number.parseInt(String(x), 10)` applied to a JavaScript number truncates it
toward zero; applied to `""` it yields `NaN`.  `Number(String(x ?? ""))`
yields `0` for an absent field (`Number("") === 0`) and the number itself
otherwise. -/

/-- Floor of a rational, computably. -/
def ratFloorInt (q : ℚ) : Int := q.num.fdiv q.den

/-- Truncation toward zero, the behaviour of `parseInt` on the decimal
rendering of a number. -/
def jsRatTrunc (q : ℚ) : Int := if 0 ≤ q then ratFloorInt q else -(ratFloorInt (-q))

/-- `Number.parseInt(String(x ?? "").trim(), 10)` for a numeric-or-absent
field `x` (absent gives `NaN`, modelled `none`). -/
def parseIntNullish (v : Option ℚ) : Option Int := v.map jsRatTrunc

/-- `Number(String(x ?? "").trim())` for a numeric-or-absent field `x`
(absent gives `Number("") = 0`). -/
def numberNullish (v : Option ℚ) : ℚ := v.getD 0

/-- `Number.parseInt(String(x || "").trim(), 10)` for a numeric-or-absent
field `x`: `x = 0` is falsy, so both `0` and absent give `NaN` (`none`). -/
def parseIntOrEmpty (v : Option ℚ) : Option Int :=
  match v with
  | none => none
  | some q => if q = 0 then none else some (jsRatTrunc q)

/-! ## Tier projection builder (`quantity-breaks.server`) -/

/-- A validated projection entry `{min_quantity, percent_off}`. -/
structure NormTier where
  min_quantity : Int
  percent_off : ℚ
deriving DecidableEq

/-- `normalizeTierForProjection`: parse the two numeric fields; reject a
non-integer or non-positive minimum quantity and a percent outside
`[0, 100]`. -/
def normalizeTierForProjection (tier : Tier) : Option NormTier :=
  match parseIntNullish tier.min_quantity with
  | none => none
  | some minQuantity =>
    if minQuantity ≤ 0 then none
    else
      let percentOff := numberNullish tier.percent_off
      if percentOff < 0 ∨ 100 < percentOff then none
      else some ⟨minQuantity, percentOff⟩

/-- One `byMinQuantity.set` step of the projection builder: keep the entry
with the higher `percent_off` for an existing threshold (strictly-greater
wins, so the first-seen tier survives ties), append a new threshold. -/
def upsertTier : List NormTier → NormTier → List NormTier
  | [], t => [t]
  | e :: rest, t =>
    if e.min_quantity = t.min_quantity then
      (if t.percent_off > e.percent_off then t else e) :: rest
    else e :: upsertTier rest t

/-- The ascending-threshold comparison used to sort the projection. -/
def normTierLe (a b : NormTier) : Bool := a.min_quantity ≤ b.min_quantity

/-- `buildProductTierProjection`: for every rule whose resolved product-id
set contains `productId`, fold that rule's valid tiers into the
by-min-quantity map, then emit the entries sorted ascending by threshold. -/
def buildProductTierProjection (discounts : List Rule) (productId : String) : List NormTier :=
  let byMinQuantity := discounts.foldl (fun acc rule =>
    if productId ∈ getRuleProductIds rule then
      rule.tiers.foldl (fun acc tier =>
        match normalizeTierForProjection tier with
        | some normalizedTier => upsertTier acc normalizedTier
        | none => acc) acc
    else acc) []
  insertionSortB normTierLe byMinQuantity

/-- The sequence of valid tiers the projection builder visits for a product:
tiers of rules containing the product, in order, with invalid ones skipped. -/
def validProjectionTiers (discounts : List Rule) (productId : String) : List NormTier :=
  (discounts.filter (fun rule => decide (productId ∈ getRuleProductIds rule))).flatMap
    (fun rule => rule.tiers.filterMap normalizeTierForProjection)

/-! ### Invariants of the by-min-quantity map -/

/-- The thresholds currently present in the map. -/
def mapKeys (m : List NormTier) : List Int := m.map NormTier.min_quantity

theorem mem_mapKeys_upsertTier {k : Int} {t : NormTier} :
    ∀ {m : List NormTier}, k ∈ mapKeys (upsertTier m t) → k ∈ mapKeys m ∨ k = t.min_quantity
  | [] => by simp [upsertTier, mapKeys]
  | e :: rest => by
    rw [upsertTier]
    by_cases hk : e.min_quantity = t.min_quantity
    · simp only [if_pos hk, mapKeys, List.map_cons, List.mem_cons]
      rintro (h | h)
      · right
        rcases (by split at h <;> simp_all : k = t.min_quantity ∨ k = e.min_quantity) with h' | h'
        · exact h'
        · rw [h', hk]
      · left; right; exact h
    · simp only [if_neg hk, mapKeys, List.map_cons, List.mem_cons]
      rintro (h | h)
      · left; left; exact h
      · rcases mem_mapKeys_upsertTier (m := rest) h with h' | h'
        · left; right; exact h'
        · right; exact h'

theorem nodupKeys_upsertTier {t : NormTier} :
    ∀ {m : List NormTier}, (mapKeys m).Nodup → (mapKeys (upsertTier m t)).Nodup
  | [] => by simp [upsertTier, mapKeys]
  | e :: rest => by
    intro h
    rw [mapKeys, List.map_cons, List.nodup_cons] at h
    rw [upsertTier]
    by_cases hk : e.min_quantity = t.min_quantity
    · rw [if_pos hk]
      have hhead : (if t.percent_off > e.percent_off then t else e).min_quantity = e.min_quantity := by
        split <;> simp [hk]
      rw [mapKeys, List.map_cons, List.nodup_cons, hhead]
      exact ⟨h.1, h.2⟩
    · rw [if_neg hk, mapKeys, List.map_cons, List.nodup_cons]
      refine ⟨?_, nodupKeys_upsertTier h.2⟩
      intro hmem
      rcases mem_mapKeys_upsertTier hmem with h' | h'
      · exact h.1 h'
      · exact hk h'

theorem mem_upsertTier {x t : NormTier} :
    ∀ {m : List NormTier}, x ∈ upsertTier m t → x ∈ m ∨ x = t
  | [] => by simp [upsertTier]
  | e :: rest => by
    rw [upsertTier]
    by_cases hk : e.min_quantity = t.min_quantity
    · simp only [if_pos hk, List.mem_cons]
      rintro (h | h)
      · split at h
        · right; exact h
        · left; left; exact h
      · left; right; exact h
    · simp only [if_neg hk, List.mem_cons]
      rintro (h | h)
      · left; left; exact h
      · rcases mem_upsertTier (m := rest) h with h' | h'
        · left; right; exact h'
        · right; exact h'

/-- Every entry of the map keeps a dominating successor after an upsert. -/
theorem dominated_upsertTier {t : NormTier} :
    ∀ {m : List NormTier}, ∀ e ∈ m, ∃ e' ∈ upsertTier m t,
      e'.min_quantity = e.min_quantity ∧ e.percent_off ≤ e'.percent_off
  | [], e => by simp
  | f :: rest, e => by
    intro he
    rw [upsertTier]
    by_cases hk : f.min_quantity = t.min_quantity
    · rw [if_pos hk]
      rcases List.mem_cons.mp he with h | h
      · subst h
        refine ⟨if t.percent_off > e.percent_off then t else e, List.mem_cons_self _ _, ?_⟩
        split
        · exact ⟨hk.symm, le_of_lt (by assumption)⟩
        · exact ⟨rfl, le_refl _⟩
      · exact ⟨e, List.mem_cons_of_mem _ h, rfl, le_refl _⟩
    · rw [if_neg hk]
      rcases List.mem_cons.mp he with h | h
      · subst h
        exact ⟨e, List.mem_cons_self _ _, rfl, le_refl _⟩
      · obtain ⟨e', he', hk', hp'⟩ := dominated_upsertTier (t := t) e h
        exact ⟨e', List.mem_cons_of_mem _ he', hk', hp'⟩

/-- The upserted tier itself gains a dominating entry. -/
theorem inserted_upsertTier {t : NormTier} :
    ∀ {m : List NormTier}, ∃ e' ∈ upsertTier m t,
      e'.min_quantity = t.min_quantity ∧ t.percent_off ≤ e'.percent_off
  | [] => ⟨t, by simp [upsertTier]⟩
  | e :: rest => by
    rw [upsertTier]
    by_cases hk : e.min_quantity = t.min_quantity
    · rw [if_pos hk]
      refine ⟨if t.percent_off > e.percent_off then t else e, List.mem_cons_self _ _, ?_⟩
      split
      · exact ⟨rfl, le_refl _⟩
      · exact ⟨hk, le_of_not_lt (by assumption)⟩
    · rw [if_neg hk]
      obtain ⟨e', he', hk', hp'⟩ := inserted_upsertTier (t := t) (m := rest)
      exact ⟨e', List.mem_cons_of_mem _ he', hk', hp'⟩

/-- The running invariant of the projection fold: thresholds are unique,
every map entry is one of the visited tiers, and every visited tier is
dominated by a map entry with its threshold. -/
def MapInv (seen m : List NormTier) : Prop :=
  (mapKeys m).Nodup ∧
  (∀ e ∈ m, e ∈ seen) ∧
  (∀ u ∈ seen, ∃ e ∈ m, e.min_quantity = u.min_quantity ∧ u.percent_off ≤ e.percent_off)

theorem mapInv_nil : MapInv [] [] := by
  refine ⟨by simp [mapKeys], by simp, by simp⟩

theorem mapInv_upsertTier {seen m : List NormTier} {t : NormTier} (h : MapInv seen m) :
    MapInv (seen ++ [t]) (upsertTier m t) := by
  obtain ⟨hnd, horig, hdom⟩ := h
  refine ⟨nodupKeys_upsertTier hnd, ?_, ?_⟩
  · intro e he
    rcases mem_upsertTier he with h' | h'
    · exact List.mem_append_left _ (horig e h')
    · subst h'; exact List.mem_append_right _ (List.mem_singleton_self _)
  · intro u hu
    rcases List.mem_append.mp hu with h' | h'
    · obtain ⟨e, he, hk, hp⟩ := hdom u h'
      obtain ⟨e', he', hk', hp'⟩ := dominated_upsertTier e he
      exact ⟨e', he', by rw [hk', hk], le_trans hp hp'⟩
    · rw [List.mem_singleton.mp h']
      exact inserted_upsertTier

theorem mapInv_foldl (ts : List NormTier) :
    ∀ {seen m : List NormTier}, MapInv seen m → MapInv (seen ++ ts) (ts.foldl upsertTier m) := by
  induction ts with
  | nil => intro seen m h; simpa using h
  | cons t ts ih =>
    intro seen m h
    have h' := ih (mapInv_upsertTier (t := t) h)
    simpa using h'

theorem mapInv_foldl_nil (ts : List NormTier) : MapInv ts (ts.foldl upsertTier []) := by
  simpa using mapInv_foldl ts mapInv_nil

/-! ### The nested fold equals the fold over the visited-tier sequence -/

theorem innerFold_eq_foldl (tiers : List Tier) :
    ∀ (acc : List NormTier),
      tiers.foldl (fun acc tier =>
        match normalizeTierForProjection tier with
        | some normalizedTier => upsertTier acc normalizedTier
        | none => acc) acc
      = (tiers.filterMap normalizeTierForProjection).foldl upsertTier acc := by
  induction tiers with
  | nil => intro acc; simp
  | cons t ts ih =>
    intro acc
    rw [List.foldl_cons, List.filterMap_cons]
    cases h : normalizeTierForProjection t with
    | none => simpa [h] using ih acc
    | some nt => simpa [h] using ih (upsertTier acc nt)

theorem projectionFold_eq_foldl (discounts : List Rule) (productId : String) :
    ∀ (acc : List NormTier),
      discounts.foldl (fun acc rule =>
        if productId ∈ getRuleProductIds rule then
          rule.tiers.foldl (fun acc tier =>
            match normalizeTierForProjection tier with
            | some normalizedTier => upsertTier acc normalizedTier
            | none => acc) acc
        else acc) acc
      = (validProjectionTiers discounts productId).foldl upsertTier acc := by
  induction discounts with
  | nil => intro acc; simp [validProjectionTiers]
  | cons r rs ih =>
    intro acc
    rw [List.foldl_cons]
    by_cases hmem : productId ∈ getRuleProductIds r
    · rw [if_pos hmem, innerFold_eq_foldl]
      rw [validProjectionTiers, List.filter_cons_of_pos (by simpa using hmem),
        List.flatMap_cons, List.foldl_append]
      exact ih _
    · rw [if_neg hmem]
      rw [validProjectionTiers, List.filter_cons_of_neg (by simpa using hmem)]
      exact ih acc

theorem mapInv_buildProjection (discounts : List Rule) (productId : String) :
    MapInv (validProjectionTiers discounts productId)
      ((validProjectionTiers discounts productId).foldl upsertTier []) := by
  exact mapInv_foldl_nil (validProjectionTiers discounts productId)

/-- Distinct-threshold entries of a nodup-key list with equal thresholds coincide. -/
theorem eq_of_mem_of_nodupKeys {m : List NormTier} (hnd : (mapKeys m).Nodup) :
    ∀ e ∈ m, ∀ e' ∈ m, e.min_quantity = e'.min_quantity → e = e' := by
  induction m with
  | nil => simp
  | cons f rest ih =>
    rw [mapKeys, List.map_cons, List.nodup_cons] at hnd
    intro e he e' he' hk
    rcases List.mem_cons.mp he with h1 | h1 <;> rcases List.mem_cons.mp he' with h2 | h2
    · rw [h1, h2]
    · exfalso
      exact hnd.1 (by rw [h1] at hk; rw [hk]; exact List.mem_map_of_mem _ h2)
    · exfalso
      exact hnd.1 (by rw [h2] at hk; rw [← hk]; exact List.mem_map_of_mem _ h1)
    · exact ih hnd.2 e h1 e' h2 hk

theorem normTierLe_trans : ∀ (a b c : NormTier),
    normTierLe a b → normTierLe b c → normTierLe a c := by
  intro a b c
  simp only [normTierLe, decide_eq_true_eq]
  omega

theorem normTierLe_total : ∀ (a b : NormTier), normTierLe a b || normTierLe b a := by
  intro a b
  simp only [normTierLe, Bool.or_eq_true, decide_eq_true_eq]
  omega

theorem buildProjection_eq_sort (discounts : List Rule) (productId : String) :
    buildProductTierProjection discounts productId
      = insertionSortB normTierLe ((validProjectionTiers discounts productId).foldl upsertTier []) := by
  rw [buildProductTierProjection, projectionFold_eq_foldl]

/-- **C2.** For every rule list and product id, the projection built for that
product is strictly ascending in `min_quantity` (hence free of duplicate
thresholds), every entry is one of the valid tiers of the rules containing
the product, its `percent_off` dominates every valid tier at its threshold
(so it equals the maximum there), and every valid tier's threshold is
represented. -/
theorem buildProjection_sorted_max (discounts : List Rule) (productId : String) :
    (buildProductTierProjection discounts productId).Pairwise
      (fun a b => a.min_quantity < b.min_quantity) ∧
    (∀ e ∈ buildProductTierProjection discounts productId,
      e ∈ validProjectionTiers discounts productId ∧
      ∀ t ∈ validProjectionTiers discounts productId,
        t.min_quantity = e.min_quantity → t.percent_off ≤ e.percent_off) ∧
    (∀ t ∈ validProjectionTiers discounts productId,
      ∃ e ∈ buildProductTierProjection discounts productId,
        e.min_quantity = t.min_quantity) := by
  obtain ⟨hnd, horig, hdom⟩ := mapInv_buildProjection discounts productId
  rw [buildProjection_eq_sort]
  set M := (validProjectionTiers discounts productId).foldl upsertTier [] with hM
  have hperm : List.Perm (insertionSortB normTierLe M) M := insertionSortB_perm normTierLe M
  have hndSorted : (mapKeys (insertionSortB normTierLe M)).Nodup :=
    ((hperm.map NormTier.min_quantity).nodup_iff).mpr hnd
  refine ⟨?_, ?_, ?_⟩
  · have hsorted := sorted_insertionSortB normTierLe normTierLe_trans normTierLe_total M
    have hne : (insertionSortB normTierLe M).Pairwise
        (fun a b => a.min_quantity ≠ b.min_quantity) := by
      have := (List.pairwise_map (f := NormTier.min_quantity)
        (R := fun a b : Int => a ≠ b)).mp hndSorted
      exact this
    refine (hsorted.and hne).imp ?_
    intro a b hab
    have h1 : a.min_quantity ≤ b.min_quantity := by
      have := hab.1
      simpa [normTierLe] using this
    exact lt_of_le_of_ne h1 hab.2
  · intro e he
    have heM : e ∈ M := mem_insertionSortB.mp he
    refine ⟨horig e heM, ?_⟩
    intro t ht hk
    obtain ⟨e', he', hk', hp'⟩ := hdom t ht
    have : e' = e := eq_of_mem_of_nodupKeys hnd e' he' e heM (by rw [hk', hk])
    rw [← this]
    exact hp'
  · intro t ht
    obtain ⟨e, he, hk, _⟩ := hdom t ht
    exact ⟨e, mem_insertionSortB.mpr he, hk⟩

/-! ## Configuration codec (`parseDiscountConfig`) -/

/-- A JSON value, as produced by `JSON.parse`. -/
inductive Json where
  | null
  | bool (b : Bool)
  | num (q : ℚ)
  | str (s : String)
  | arr (elems : List Json)
  | obj (fields : List (String × Json))

/-- The raw metafield value handed to the decoder: absent or falsy (`""`),
a string `JSON.parse` rejects, or a string parsing to the given value. -/
inductive RawConfigValue where
  | absentOrEmpty
  | invalidJson
  | validJson (j : Json)

/-- The empty configuration `{discounts: []}` the decoder falls back to. -/
def emptyConfig : Json := .obj [("discounts", .arr [])]

/-- Last-wins field lookup, matching the duplicate-key behaviour of
`JSON.parse` objects. -/
def getField (fields : List (String × Json)) (key : String) : Option Json :=
  fields.foldl (fun acc p => if p.1 = key then some p.2 else acc) none

def isArrayField : Option Json → Bool
  | some (.arr _) => true
  | _ => false

/-- `parseDiscountConfig`: soft decoder.  Absent/empty input, a parse
failure, a non-object value (including arrays, whose `discounts` property is
`undefined`), and an object without an array `discounts` field all collapse
to the empty configuration; an object with an array `discounts` field is
returned unchanged.  Total, so no exception escapes. -/
def parseDiscountConfig : RawConfigValue → Json
  | .absentOrEmpty => emptyConfig
  | .invalidJson => emptyConfig
  | .validJson j =>
    match j with
    | .obj fields =>
      if isArrayField (getField fields "discounts") then .obj fields else emptyConfig
    | _ => emptyConfig

/-! ## Batched projection recompute (`recomputeProductDiscountProjectionMetafields`) -/

/-- One `metafieldsSet` entry for a product.  The constant namespace, key
and type are omitted; `value` is the projection the source serializes
(`"[]"` for the empty projection, which is exactly its serialization). -/
structure ProductMetafield where
  ownerId : String
  value : List NormTier
deriving DecidableEq

/-- The `items.products` part of a discount payload: the optional
`productsToAdd` / `productsToRemove` keys. -/
structure ProductsInput where
  productsToAdd : Option (List String)
  productsToRemove : Option (List String)
deriving DecidableEq

/-- An automatic-discount payload.  The constant fields (`combinesWith` all
true, one-time purchase only, no subscription) and the create-time
`startsAt` timestamp are omitted; `minQuantity` is serialized as a decimal
string by the source; the wire payload's `percentage` is `percent_off /
100` — the injective division by the constant 100 is dropped and the
integer percent recorded. -/
structure DiscountInput where
  title : String
  minQuantity : Int
  percentage : Int
  products : ProductsInput
deriving DecidableEq

/-- A remote GraphQL mutation issued by an action, in issue order. -/
inductive RemoteCall where
  | createDiscount (input : DiscountInput)
  | updateDiscount (id : String) (input : DiscountInput)
  | deleteDiscount (id : String)
  | activateDiscount (id : String)
  | deactivateDiscount (id : String)
  | setShopMetafield (doc : Doc)
  | setProductMetafields (entries : List ProductMetafield)
deriving DecidableEq

structure CreateDiscountResult where
  userErrors : List String
  discountId : Option String
deriving DecidableEq

/-- The remote service oracle: for each mutation payload, the `userErrors`
it reports (and for creation, the id of the created discount node).
Responses to `activate`/`deactivate` are ignored by the source, so they are
not modelled. -/
structure Admin where
  createResp : DiscountInput → CreateDiscountResult
  updateResp : String → DiscountInput → List String
  deleteResp : String → List String
  shopSetResp : Doc → List String
  productSetResp : List ProductMetafield → List String

def MAX_METAFIELDS_SET : Nat := 25

/-- Fuel-bounded chunking (structural, so concrete runs evaluate; the fuel
is always instantiated with the list's length, which suffices for any
positive chunk size). -/
def chunkArrayFuel : Nat → List α → Nat → List (List α)
  | 0, _, _ => []
  | _ + 1, [], _ => []
  | fuel + 1, x :: xs, size => (x :: xs).take size :: chunkArrayFuel fuel ((x :: xs).drop size) size

/-- `chunkArray`: slice into consecutive chunks of `size` (the source only
ever invokes it with the positive size 25). -/
def chunkArray (items : List α) (size : Nat) : List (List α) :=
  chunkArrayFuel items.length items size

theorem flatten_chunkArray (s : Nat) (l : List α) : (chunkArray l (s + 1)).flatten = l := by
  rw [chunkArray]
  generalize hfuel : l.length = fuel
  have hle : l.length ≤ fuel := Nat.le_of_eq hfuel
  clear hfuel
  induction fuel generalizing l with
  | zero =>
    rw [List.length_eq_zero.mp (Nat.le_zero.mp hle)]
    rfl
  | succ fuel ih =>
    match l with
    | [] => rfl
    | x :: xs =>
      rw [chunkArrayFuel, List.flatten_cons, ih _ (by
        simp only [List.drop_succ_cons, List.length_drop, List.length_cons] at hle ⊢
        omega)]
      exact List.take_append_drop _ _

theorem length_le_of_mem_chunkArray (s : Nat) {l : List α} :
    ∀ c ∈ chunkArray l (s + 1), c.length ≤ s + 1 := by
  rw [chunkArray]
  generalize hfuel : l.length = fuel
  clear hfuel
  induction fuel generalizing l with
  | zero => simp [chunkArrayFuel]
  | succ fuel ih =>
    match l with
    | [] => simp [chunkArrayFuel]
    | x :: xs =>
      rw [chunkArrayFuel]
      intro c hc
      rcases List.mem_cons.mp hc with h | h
      · rw [h]
        exact List.length_take_le _ _
      · exact ih c h

/-- Per-product projection metafield entries for the given products. -/
def projectionMetafields (discounts : List Rule) (productIds : List String) :
    List ProductMetafield :=
  productIds.map (fun productId => ⟨productId, buildProductTierProjection discounts productId⟩)

/-- `recomputeProductDiscountProjectionMetafields`: normalize the affected
ids, build one projection entry per product, write them in sequential
chunks of at most 25, collecting (never aborting on) each chunk's user
errors. -/
def recomputeProjections (admin : Admin) (discounts : List Rule)
    (affectedProductIds : List ProductRef) : List String × List RemoteCall :=
  let productIds := normalizeProductIds affectedProductIds
  if productIds = [] then ([], [])
  else
    (chunkArray (projectionMetafields discounts productIds) MAX_METAFIELDS_SET).foldl
      (fun acc chunk =>
        (acc.1 ++ admin.productSetResp chunk, acc.2 ++ [RemoteCall.setProductMetafields chunk]))
      ([], [])

theorem foldl_chunks (admin : Admin) (chunks : List (List ProductMetafield)) :
    ∀ (a : List String) (b : List RemoteCall),
      chunks.foldl
        (fun acc chunk =>
          (acc.1 ++ admin.productSetResp chunk, acc.2 ++ [RemoteCall.setProductMetafields chunk]))
        (a, b)
      = (a ++ (chunks.map admin.productSetResp).flatten,
         b ++ chunks.map RemoteCall.setProductMetafields) := by
  induction chunks with
  | nil => intro a b; simp
  | cons c cs ih =>
    intro a b
    rw [List.foldl_cons, ih]
    simp

theorem recomputeProjections_eq (admin : Admin) (discounts : List Rule)
    (affectedProductIds : List ProductRef) :
    recomputeProjections admin discounts affectedProductIds
      = ((chunkArray (projectionMetafields discounts (normalizeProductIds affectedProductIds))
            MAX_METAFIELDS_SET).map admin.productSetResp |>.flatten,
         (chunkArray (projectionMetafields discounts (normalizeProductIds affectedProductIds))
            MAX_METAFIELDS_SET).map RemoteCall.setProductMetafields) := by
  rw [recomputeProjections]
  by_cases h : normalizeProductIds affectedProductIds = []
  · simp [h, projectionMetafields, chunkArray, chunkArrayFuel, MAX_METAFIELDS_SET]
  · rw [if_neg h, foldl_chunks]
    simp

/-! ## Slug derivation (`toKebabCase`) -/

/-- The character class `[a-z0-9\s-]` kept by the slug's first rewrite. -/
def isKebabAllowed (c : Char) : Bool :=
  c.isLower || c.isDigit || c.isWhitespace || c = '-'

/-- Replace every maximal run of characters satisfying `p` by the single
character `r` (the `\s+` and `-+` global replaces). -/
def squashRuns (p : Char → Bool) (r : Char) : List Char → List Char
  | [] => []
  | [c] => if p c then [r] else [c]
  | c1 :: c2 :: rest =>
    if p c1 && p c2 then squashRuns p r (c2 :: rest)
    else (if p c1 then r else c1) :: squashRuns p r (c2 :: rest)

/-- `toKebabCase`: trim, lowercase, drop characters outside `[a-z0-9\s-]`,
collapse whitespace runs to `-`, collapse `-` runs. -/
def toKebabCase (value : String) : String :=
  let kept := ((jsToLower (jsTrim value)).data).filter isKebabAllowed
  String.mk (squashRuns (fun c => c = '-') '-' (squashRuns Char.isWhitespace '-' kept))

/-! ## JavaScript form-value parsing -/

/-- The value of the leading digit run, if any. -/
def digitsVal (cs : List Char) : Option Nat :=
  let ds := cs.takeWhile Char.isDigit
  if ds = [] then none
  else some (ds.foldl (fun acc c => acc * 10 + (c.toNat - 48)) 0)

/-- `Number.parseInt(s, 10)`: skip surrounding whitespace, optional sign,
longest digit prefix; `NaN` (`none`) when no digits follow. -/
def jsParseInt10 (s : String) : Option Int :=
  match (jsTrim s).data with
  | '-' :: rest => (digitsVal rest).map (fun n => -(n : Int))
  | '+' :: rest => (digitsVal rest).map (fun n => (n : Int))
  | cs => (digitsVal cs).map (fun n => (n : Int))

/-- A raw JSON scalar of a submitted tier field. -/
inductive JsVal where
  | num (q : ℚ)
  | str (s : String)
  | null
deriving DecidableEq

/-- `Number.parseInt(String(v || "").trim(), 10)`: a falsy value (`0`, `""`,
`null`) renders as `""` and parses to `NaN`; a non-zero number's decimal
rendering parses back to its truncation toward zero; a non-empty string is
parsed by `parseInt`. -/
def jsValParseIntOrEmpty : JsVal → Option Int
  | .num q => if q = 0 then none else some (jsRatTrunc q)
  | .str s => if s = "" then none else jsParseInt10 s
  | .null => none

/-! ## The update-rule action (`update-rule-settings`) -/

/-- A tier of the update form's JSON payload.  `title` / `discount_id` are
the strings the editor submits (`""` for absent); the numeric fields are
arbitrary JSON scalars; `products` is any legacy per-tier product list the
payload carries through the object spread. -/
structure RawTier where
  title : String
  min_quantity : JsVal
  percent_off : JsVal
  discount_id : String
  products : List ProductRef
deriving DecidableEq

/-- A tier after the parse step `{...tier, title, min_quantity, percent_off}`. -/
structure ParsedTier where
  title : String
  min_quantity : Option Int
  percent_off : Option Int
  discount_id : String
  products : List ProductRef
deriving DecidableEq

def parseTier (tier : RawTier) : ParsedTier :=
  { title := jsTrim tier.title
    min_quantity := jsValParseIntOrEmpty tier.min_quantity
    percent_off := jsValParseIntOrEmpty tier.percent_off
    discount_id := tier.discount_id
    products := tier.products }

/-- The `findIndex` predicate of the update action's tier validation: no
title, no integer minimum quantity `≥ 1`, or no integer percent in
`[0, 100]`. -/
def invalidParsedTier (tier : ParsedTier) : Bool :=
  tier.title = "" ||
  (match tier.min_quantity with
   | none => true
   | some minQuantity => minQuantity < 1) ||
  (match tier.percent_off with
   | none => true
   | some percentOff => percentOff < 0 || 100 < percentOff)

def tierValidationMessage (position : Nat) : String :=
  "Tier " ++ toString position ++
    " must have a title, minimum quantity (>= 1), and percent discount (0-100)."

/-- The update form's desired state. -/
structure UpdateInput where
  title : String
  status : String
  tiers : List RawTier
  products : List ProductRef

/-- The validation phase of the update action (everything before the shop
query): first violation wins. -/
def updateValidationError (input : UpdateInput) : Option (List String) :=
  let nextTitle := jsTrim input.title
  let nextStatus := jsToLower (jsTrim input.status)
  if nextTitle = "" then some ["Title is required."]
  else if nextStatus ≠ "active" ∧ nextStatus ≠ "inactive" then
    some ["Status must be Active or Inactive."]
  else if normalizeProductIds input.products = [] then
    some ["At least one product is required for this rule."]
  else
    let parsedTiers := input.tiers.map parseTier
    if parsedTiers = [] then some ["At least one discount tier is required."]
    else
      match parsedTiers.findIdx? invalidParsedTier with
      | some index => some [tierValidationMessage (index + 1)]
      | none => none

/-- The `a.min_quantity - b.min_quantity` ascending comparator key (the
parsed fields are `some` for every tier that reaches a sort). -/
def tierMinKey (tier : ParsedTier) : Int := tier.min_quantity.getD 0

def parsedTierLe (a b : ParsedTier) : Bool := tierMinKey a ≤ tierMinKey b

/-- A tier as written back into the document (`JSON.stringify` keeps the
parsed integer fields and the possibly refreshed `discount_id`). -/
def storeParsedTier (tier : ParsedTier) : Tier :=
  { title := tier.title
    min_quantity := tier.min_quantity.map (fun n => (n : ℚ))
    percent_off := tier.percent_off.map (fun n => (n : ℚ))
    discount_id := tier.discount_id
    products := tier.products }

/-- `previousTierByDiscountId.get(id)`: the map is built from the previous
tiers with a non-empty `discount_id`; a JS `Map` keeps the last entry for a
duplicated key. -/
def lookupPreviousTier (previousTiers : List Tier) (discountId : String) : Option Tier :=
  (previousTiers.filter (fun tier => tier.discount_id ≠ "" && tier.discount_id = discountId)).getLast?

/-- Whether a submitted tier's fields differ from the previously stored tier
carrying its `discount_id` (absent previous tier counts as changed).  Only
evaluated on validated tiers, whose parsed fields are `some`. -/
def tierChanged (previousTier : Option Tier) (tier : ParsedTier) : Bool :=
  match previousTier with
  | none => true
  | some prev =>
      jsTrim prev.title ≠ tier.title ||
      parseIntOrEmpty prev.min_quantity ≠ tier.min_quantity ||
      parseIntOrEmpty prev.percent_off ≠ tier.percent_off

/-- The loop-invariant context of the per-tier reconciliation. -/
structure ReconcileCtx where
  previousTiers : List Tier
  productsChanged : Bool
  addedProductIds : List String
  removedProductIds : List String
  productIds : List String

/-- The `items.products` payload of a tier mutation: incremental add/remove
lists when an existing discount is updated and the product set changed, a
full `productsToAdd` otherwise. -/
def updateProductsInput (ctx : ReconcileCtx) (shouldUpdateExistingDiscount : Bool) : ProductsInput :=
  if shouldUpdateExistingDiscount && ctx.productsChanged then
    { productsToAdd := if ctx.addedProductIds ≠ [] then some ctx.addedProductIds else none
      productsToRemove := if ctx.removedProductIds ≠ [] then some ctx.removedProductIds else none }
  else
    { productsToAdd := some ctx.productIds, productsToRemove := none }

/-- The discount payload built for a tier. -/
def tierDiscountInput (tier : ParsedTier) (productsInput : ProductsInput) : DiscountInput :=
  { title := tier.title
    minQuantity := tierMinKey tier
    percentage := tier.percent_off.getD 0
    products := productsInput }

/-- `previousTierByDiscountId.get(tier.discount_id)` guarded by
`hasExistingDiscountId`. -/
def previousTierFor (previousTiers : List Tier) (discountId : String) : Option Tier :=
  if discountId ≠ "" then lookupPreviousTier previousTiers discountId else none

/-- `shouldCreateDiscount = !hasExistingDiscountId`. -/
def shouldCreateTier (tier : ParsedTier) : Bool := !decide (tier.discount_id ≠ "")

/-- `shouldUpdateExistingDiscount = hasExistingDiscountId && (tierChanged || productsChanged)`. -/
def shouldUpdateTier (ctx : ReconcileCtx) (tier : ParsedTier) : Bool :=
  decide (tier.discount_id ≠ "") &&
    (tierChanged (previousTierFor ctx.previousTiers tier.discount_id) tier || ctx.productsChanged)

/-- The discount payload the loop builds for a tier. -/
def loopDiscountInput (ctx : ReconcileCtx) (tier : ParsedTier) : DiscountInput :=
  tierDiscountInput tier (updateProductsInput ctx (shouldUpdateTier ctx tier))

/-- The per-tier reconciliation loop: an unchanged materialized tier is
carried over; an existing changed tier (or one whose rule's products
changed) is updated remotely; a tier without a `discount_id` is created
remotely and receives the created id.  The first remote rejection aborts.
Returns the reconciled tier list and the trace of issued mutations. -/
def reconcileTiers (admin : Admin) (ctx : ReconcileCtx) :
    List ParsedTier → List ParsedTier → (Except (List String) (List ParsedTier)) × List RemoteCall
  | [], acc => (.ok acc, [])
  | tier :: rest, acc =>
    if !shouldCreateTier tier && !shouldUpdateTier ctx tier then
      reconcileTiers admin ctx rest (acc ++ [tier])
    else if ctx.productIds = [] then
      (.error ["This rule must have at least one product."], [])
    else
      if shouldUpdateTier ctx tier then
        if admin.updateResp tier.discount_id (loopDiscountInput ctx tier) ≠ [] then
          (.error (admin.updateResp tier.discount_id (loopDiscountInput ctx tier)),
           [RemoteCall.updateDiscount tier.discount_id (loopDiscountInput ctx tier)])
        else
          let next := reconcileTiers admin ctx rest (acc ++ [tier])
          (next.1, RemoteCall.updateDiscount tier.discount_id (loopDiscountInput ctx tier) :: next.2)
      else
        if (admin.createResp (loopDiscountInput ctx tier)).userErrors ≠ [] then
          (.error (admin.createResp (loopDiscountInput ctx tier)).userErrors,
           [RemoteCall.createDiscount (loopDiscountInput ctx tier)])
        else
          match (admin.createResp (loopDiscountInput ctx tier)).discountId with
          | none =>
            (.error ["Failed to create tier discount in Shopify."],
             [RemoteCall.createDiscount (loopDiscountInput ctx tier)])
          | some createdDiscountId =>
            let next :=
              reconcileTiers admin ctx rest (acc ++ [{ tier with discount_id := createdDiscountId }])
            (next.1, RemoteCall.createDiscount (loopDiscountInput ctx tier) :: next.2)

/-- The reconciliation loop with the `productIds.length === 0` guard
removed — used to state that the guard is dead code. -/
def reconcileTiersNoGuard (admin : Admin) (ctx : ReconcileCtx) :
    List ParsedTier → List ParsedTier → (Except (List String) (List ParsedTier)) × List RemoteCall
  | [], acc => (.ok acc, [])
  | tier :: rest, acc =>
    if !shouldCreateTier tier && !shouldUpdateTier ctx tier then
      reconcileTiersNoGuard admin ctx rest (acc ++ [tier])
    else
      if shouldUpdateTier ctx tier then
        if admin.updateResp tier.discount_id (loopDiscountInput ctx tier) ≠ [] then
          (.error (admin.updateResp tier.discount_id (loopDiscountInput ctx tier)),
           [RemoteCall.updateDiscount tier.discount_id (loopDiscountInput ctx tier)])
        else
          let next := reconcileTiersNoGuard admin ctx rest (acc ++ [tier])
          (next.1, RemoteCall.updateDiscount tier.discount_id (loopDiscountInput ctx tier) :: next.2)
      else
        if (admin.createResp (loopDiscountInput ctx tier)).userErrors ≠ [] then
          (.error (admin.createResp (loopDiscountInput ctx tier)).userErrors,
           [RemoteCall.createDiscount (loopDiscountInput ctx tier)])
        else
          match (admin.createResp (loopDiscountInput ctx tier)).discountId with
          | none =>
            (.error ["Failed to create tier discount in Shopify."],
             [RemoteCall.createDiscount (loopDiscountInput ctx tier)])
          | some createdDiscountId =>
            let next :=
              reconcileTiersNoGuard admin ctx rest
                (acc ++ [{ tier with discount_id := createdDiscountId }])
            (next.1, RemoteCall.createDiscount (loopDiscountInput ctx tier) :: next.2)

/-- The removed-tier cleanup and the delete-rule cascade: delete each id in
turn, aborting on the first id whose deletion reports user errors. -/
def deleteDiscountsLoop (admin : Admin) : List String → (Except (List String) Unit) × List RemoteCall
  | [] => (.ok (), [])
  | discountId :: rest =>
    if admin.deleteResp discountId ≠ [] then
      (.error (admin.deleteResp discountId), [RemoteCall.deleteDiscount discountId])
    else
      let next := deleteDiscountsLoop admin rest
      (next.1, RemoteCall.deleteDiscount discountId :: next.2)

/-- The fire-and-forget status propagation: one activate or deactivate call
per final discount id (responses are ignored by the source). -/
def statusCalls (nextStatus : String) (discountIds : List String) : List RemoteCall :=
  discountIds.map (fun discountId =>
    if nextStatus = "inactive" then RemoteCall.deactivateDiscount discountId
    else RemoteCall.activateDiscount discountId)

/-- The non-empty discount ids carried by stored tiers. -/
def storedDiscountIds (tiers : List Tier) : List String :=
  (tiers.map Tier.discount_id).filter (fun id => id ≠ "")

/-- The non-empty discount ids carried by reconciled tiers. -/
def parsedDiscountIds (tiers : List ParsedTier) : List String :=
  (tiers.map ParsedTier.discount_id).filter (fun id => id ≠ "")

/-- Locate a rule by its slug. -/
def findRuleIndex (discounts : List Rule) (tableHandle : String) : Option Nat :=
  discounts.findIdx? (fun rule => toKebabCase rule.title = tableHandle)

/-- `[...ids].sort()`: JavaScript's default lexicographic string sort. -/
def sortStrings (l : List String) : List String := insertionSortB strLeB l

def emptyRule : Rule := ⟨"", "", [], []⟩

/-- An action's `{ok, errors}` response (the success payload fields are
reconstructed from the trace where a claim needs them). -/
structure ActionResult where
  ok : Bool
  errors : List String
deriving DecidableEq

/-- The product-diff context the update action computes before its per-tier
loop: previous tiers, whether the sorted previous and desired product-id
lists differ, the set differences, and the desired product ids. -/
def updateRuleCtx (doc : Doc) (input : UpdateInput) (ruleIndex : Nat) : ReconcileCtx :=
  let productIds := normalizeProductIds input.products
  let rule := doc.discounts.getD ruleIndex emptyRule
  let previousProductIds := getRuleProductIds rule
  { previousTiers := rule.tiers
    productsChanged := decide (sortStrings previousProductIds ≠ sortStrings productIds)
    addedProductIds := productIds.filter (fun id => decide (id ∉ previousProductIds))
    removedProductIds := previousProductIds.filter (fun id => decide (id ∉ productIds))
    productIds := productIds }

/-- The sorted desired tiers of an update request. -/
def updateSortedTiers (input : UpdateInput) : List ParsedTier :=
  insertionSortB parsedTierLe (input.tiers.map parseTier)

/-- The second sort (after the loop has attached created discount ids). -/
def updateFinalTiers (reconciledTiers : List ParsedTier) : List ParsedTier :=
  insertionSortB parsedTierLe reconciledTiers

/-- The previously materialized discount ids no longer present in the
reconciled tier list (their tiers were deleted in the editor). -/
def updateRemovedDiscountIds (doc : Doc) (ruleIndex : Nat)
    (reconciledTiers : List ParsedTier) : List String :=
  (storedDiscountIds (doc.discounts.getD ruleIndex emptyRule).tiers).filter
    (fun id => decide (id ∉ parsedDiscountIds (updateFinalTiers reconciledTiers)))

/-- The rule as written back into the document by the update action. -/
def updateWrittenRule (doc : Doc) (input : UpdateInput) (ruleIndex : Nat)
    (reconciledTiers : List ParsedTier) : Rule :=
  { doc.discounts.getD ruleIndex emptyRule with
      title := jsTrim input.title
      status := jsToLower (jsTrim input.status)
      products := (normalizeProductIds input.products).map ProductRef.str
      tiers := (updateFinalTiers reconciledTiers).map storeParsedTier }

/-- The document written back by the update action: the updated rule
replaces the old one at its original index. -/
def updateWrittenDoc (doc : Doc) (input : UpdateInput) (ruleIndex : Nat)
    (reconciledTiers : List ParsedTier) : Doc :=
  ⟨doc.discounts.set ruleIndex (updateWrittenRule doc input ruleIndex reconciledTiers)⟩

/-- The union (first-seen order) of the previous and desired product sets,
re-projected after the document write. -/
def updateAffectedProductIds (doc : Doc) (input : UpdateInput) (ruleIndex : Nat) :
    List String :=
  dedupFirstSeen
    (getRuleProductIds (doc.discounts.getD ruleIndex emptyRule) ++
      normalizeProductIds input.products)

/-- The trace prefix of the update action's successful loop and delete
phases: loop mutations, removed-tier deletes, status calls, the document
write. -/
def updateBaseTrace (doc : Doc) (input : UpdateInput) (ruleIndex : Nat)
    (reconciledTiers : List ParsedTier) (loopTrace deleteTrace : List RemoteCall) :
    List RemoteCall :=
  loopTrace ++ deleteTrace ++
    statusCalls (jsToLower (jsTrim input.status))
      (parsedDiscountIds (updateFinalTiers reconciledTiers)) ++
    [RemoteCall.setShopMetafield (updateWrittenDoc doc input ruleIndex reconciledTiers)]

/-- The update action's write-and-reproject phase, after the per-tier loop
and the removed-tier deletes have succeeded. -/
def updateAfterDelete (admin : Admin) (doc : Doc) (input : UpdateInput) (ruleIndex : Nat)
    (reconciledTiers : List ParsedTier) (loopTrace deleteTrace : List RemoteCall) :
    ActionResult × List RemoteCall :=
  if admin.shopSetResp (updateWrittenDoc doc input ruleIndex reconciledTiers) ≠ [] then
    (⟨false, admin.shopSetResp (updateWrittenDoc doc input ruleIndex reconciledTiers)⟩,
     updateBaseTrace doc input ruleIndex reconciledTiers loopTrace deleteTrace)
  else
    if (recomputeProjections admin (updateWrittenDoc doc input ruleIndex reconciledTiers).discounts
          ((updateAffectedProductIds doc input ruleIndex).map ProductRef.str)).1 ≠ [] then
      (⟨false,
        (recomputeProjections admin (updateWrittenDoc doc input ruleIndex reconciledTiers).discounts
          ((updateAffectedProductIds doc input ruleIndex).map ProductRef.str)).1⟩,
       updateBaseTrace doc input ruleIndex reconciledTiers loopTrace deleteTrace ++
         (recomputeProjections admin (updateWrittenDoc doc input ruleIndex reconciledTiers).discounts
           ((updateAffectedProductIds doc input ruleIndex).map ProductRef.str)).2)
    else
      (⟨true, []⟩,
       updateBaseTrace doc input ruleIndex reconciledTiers loopTrace deleteTrace ++
         (recomputeProjections admin (updateWrittenDoc doc input ruleIndex reconciledTiers).discounts
           ((updateAffectedProductIds doc input ruleIndex).map ProductRef.str)).2)

/-- Dispatch on the outcome of the removed-tier delete cascade. -/
def updateAfterLoop (admin : Admin) (doc : Doc) (input : UpdateInput) (ruleIndex : Nat)
    (reconciledTiers : List ParsedTier) (loopTrace : List RemoteCall) :
    ActionResult × List RemoteCall :=
  match deleteDiscountsLoop admin (updateRemovedDiscountIds doc ruleIndex reconciledTiers) with
  | (.error errors, deleteTrace) => (⟨false, errors⟩, loopTrace ++ deleteTrace)
  | (.ok _, deleteTrace) =>
    updateAfterDelete admin doc input ruleIndex reconciledTiers loopTrace deleteTrace

/-- The steps of the update action that follow validation and rule lookup
(per-tier reconciliation, removed-tier deletion, status propagation,
document write at the same index, re-projection of the union of previous
and next product sets). -/
def updateRuleReconcile
    (loop : Admin → ReconcileCtx → List ParsedTier → List ParsedTier →
      (Except (List String) (List ParsedTier)) × List RemoteCall)
    (admin : Admin) (doc : Doc) (input : UpdateInput) (ruleIndex : Nat) :
    ActionResult × List RemoteCall :=
  match loop admin (updateRuleCtx doc input ruleIndex) (updateSortedTiers input) [] with
  | (.error errors, loopTrace) => (⟨false, errors⟩, loopTrace)
  | (.ok reconciledTiers, loopTrace) =>
    updateAfterLoop admin doc input ruleIndex reconciledTiers loopTrace

/-- The update-rule action, parametrized by the reconciliation loop so that
the dead in-loop product guard can be compared against its removal.
Mirrors the source order: validate, sort the desired tiers, locate the rule,
diff the product sets, then reconcile and write. -/
def updateRuleActionWith
    (loop : Admin → ReconcileCtx → List ParsedTier → List ParsedTier →
      (Except (List String) (List ParsedTier)) × List RemoteCall)
    (admin : Admin) (doc : Doc) (input : UpdateInput) (tableHandle : String) :
    ActionResult × List RemoteCall :=
  match updateValidationError input with
  | some errors => (⟨false, errors⟩, [])
  | none =>
    match findRuleIndex doc.discounts tableHandle with
    | none => (⟨false, ["Rule not found."]⟩, [])
    | some ruleIndex => updateRuleReconcile loop admin doc input ruleIndex

def updateRuleAction : Admin → Doc → UpdateInput → String → ActionResult × List RemoteCall :=
  updateRuleActionWith reconcileTiers

/-- The update-rule action built over the guard-free loop. -/
def updateRuleActionNoGuard : Admin → Doc → UpdateInput → String → ActionResult × List RemoteCall :=
  updateRuleActionWith reconcileTiersNoGuard

/-! ## The delete-rule action -/

/-- The document written by the delete action: the rule removed from its
index. -/
def deleteRuleNextDoc (doc : Doc) (ruleIndex : Nat) : Doc :=
  ⟨doc.discounts.eraseIdx ruleIndex⟩

/-- The delete action's write-and-reproject phase (after every discount
delete succeeded). -/
def deleteAfterCascade (admin : Admin) (doc : Doc) (ruleIndex : Nat)
    (deleteTrace : List RemoteCall) : ActionResult × List RemoteCall :=
  if admin.shopSetResp (deleteRuleNextDoc doc ruleIndex) ≠ [] then
    (⟨false, admin.shopSetResp (deleteRuleNextDoc doc ruleIndex)⟩,
     deleteTrace ++ [RemoteCall.setShopMetafield (deleteRuleNextDoc doc ruleIndex)])
  else
    if (recomputeProjections admin (deleteRuleNextDoc doc ruleIndex).discounts
          ((getRuleProductIds (doc.discounts.getD ruleIndex emptyRule)).map ProductRef.str)).1
        ≠ [] then
      (⟨false,
        (recomputeProjections admin (deleteRuleNextDoc doc ruleIndex).discounts
          ((getRuleProductIds (doc.discounts.getD ruleIndex emptyRule)).map ProductRef.str)).1⟩,
       deleteTrace ++ [RemoteCall.setShopMetafield (deleteRuleNextDoc doc ruleIndex)] ++
         (recomputeProjections admin (deleteRuleNextDoc doc ruleIndex).discounts
           ((getRuleProductIds (doc.discounts.getD ruleIndex emptyRule)).map ProductRef.str)).2)
    else
      (⟨true, []⟩,
       deleteTrace ++ [RemoteCall.setShopMetafield (deleteRuleNextDoc doc ruleIndex)] ++
         (recomputeProjections admin (deleteRuleNextDoc doc ruleIndex).discounts
           ((getRuleProductIds (doc.discounts.getD ruleIndex emptyRule)).map ProductRef.str)).2)

/-- The delete action once the rule has been located: cascade over every
non-empty discount id the rule's tiers carry, then write and re-project. -/
def deleteRuleLocated (admin : Admin) (doc : Doc) (ruleIndex : Nat) :
    ActionResult × List RemoteCall :=
  match deleteDiscountsLoop admin
      (storedDiscountIds (doc.discounts.getD ruleIndex emptyRule).tiers) with
  | (.error errors, deleteTrace) => (⟨false, errors⟩, deleteTrace)
  | (.ok _, deleteTrace) => deleteAfterCascade admin doc ruleIndex deleteTrace

/-- The delete-rule action: locate the rule by slug, delete every non-empty
discount id its tiers carry (first failure aborts before the document is
touched), remove the rule from the document, persist, re-project the rule's
products. -/
def deleteRuleAction (admin : Admin) (doc : Doc) (tableHandle : String) :
    ActionResult × List RemoteCall :=
  match findRuleIndex doc.discounts tableHandle with
  | none => (⟨false, ["Rule not found."]⟩, [])
  | some ruleIndex => deleteRuleLocated admin doc ruleIndex

/-! ## The create-rule (add-discount) action -/

/-- The add-discount form's fields (`FormData.get` returns the string or
`null`), plus the decoded `selectedProducts` JSON. -/
structure CreateInput where
  title : Option String
  discountTitle : Option String
  minimumQuantity : Option String
  percentOff : Option String
  selectedProducts : List ProductRef

/-- `String(formData.get(k) || "")`. -/
def formString (v : Option String) : String := v.getD ""

/-- `String(formData.get(k) || "0")`. -/
def formStringOrZero (v : Option String) : String :=
  match v with
  | none => "0"
  | some s => if s = "" then "0" else s

/-- `product?.id` of a selected-products entry. -/
def selectedProductId : ProductRef → ProductRef
  | .obj id => .str id
  | _ => .other

/-- The create action's error accumulation (all violations are collected). -/
def createValidationErrors (title discountTitle : String)
    (minimumQuantity percentOff : Option Int) (normalizedProductIds : List String) :
    List String :=
  (if title = "" then ["Title is required."] else []) ++
  (if discountTitle = "" then ["Discount title is required."] else []) ++
  (match minimumQuantity with
   | none => ["Minimum product quantity must be a whole number greater than 0."]
   | some minQuantity =>
     if minQuantity < 1 then ["Minimum product quantity must be a whole number greater than 0."]
     else []) ++
  (match percentOff with
   | none => ["Percent off must be a whole number between 1 and 100."]
   | some percent =>
     if percent < 1 ∨ 100 < percent then ["Percent off must be a whole number between 1 and 100."]
     else []) ++
  (if normalizedProductIds = [] then ["Select at least one product."] else [])

/-- The parsed form fields of the create action. -/
structure CreateParsed where
  title : String
  discountTitle : String
  minimumQuantity : Option Int
  percentOff : Option Int
  normalizedProductIds : List String

def parseCreateInput (input : CreateInput) : CreateParsed :=
  { title := jsTrim (formString input.title)
    discountTitle := jsTrim (formString input.discountTitle)
    minimumQuantity := jsParseInt10 (formStringOrZero input.minimumQuantity)
    percentOff := jsParseInt10 (formStringOrZero input.percentOff)
    normalizedProductIds := normalizeProductIds (input.selectedProducts.map selectedProductId) }

def createErrorsOf (p : CreateParsed) : List String :=
  createValidationErrors p.title p.discountTitle p.minimumQuantity p.percentOff
    p.normalizedProductIds

/-- The payload of the single discount creation (full `productsToAdd`). -/
def createDiscountInputOf (p : CreateParsed) : DiscountInput :=
  { title := p.discountTitle
    minQuantity := p.minimumQuantity.getD 0
    percentage := p.percentOff.getD 0
    products := { productsToAdd := some p.normalizedProductIds, productsToRemove := none } }

/-- The tier appended to the rule (`discount_id` is dropped from the
serialization when creation returned no node id). -/
def createNewTierOf (p : CreateParsed) (discountId : Option String) : Tier :=
  { title := p.discountTitle
    min_quantity := some ((p.minimumQuantity.getD 0 : Int) : ℚ)
    percent_off := some ((p.percentOff.getD 0 : Int) : ℚ)
    discount_id := discountId.getD ""
    products := [] }

/-- `findIndex(discount => discount?.title === title)`. -/
def createExistingIndex (doc : Doc) (p : CreateParsed) : Option Nat :=
  doc.discounts.findIdx? (fun rule => rule.title = p.title)

def createPreviousProductIds (doc : Doc) (p : CreateParsed) : List String :=
  match createExistingIndex doc p with
  | some index => getRuleProductIds (doc.discounts.getD index emptyRule)
  | none => []

def createExistingStatus (doc : Doc) (p : CreateParsed) : String :=
  match createExistingIndex doc p with
  | some index =>
    if (doc.discounts.getD index emptyRule).status = "inactive" then "inactive" else "active"
  | none => "active"

/-- The rule list written back by the create action: either the same-title
rule with the tier appended and the product set replaced, or a freshly
appended active rule. -/
def createNextDiscountsOf (doc : Doc) (p : CreateParsed) (newTier : Tier) : List Rule :=
  match createExistingIndex doc p with
  | some index =>
    let existing := doc.discounts.getD index emptyRule
    doc.discounts.set index
      { existing with
          title := p.title
          products := p.normalizedProductIds.map ProductRef.str
          status := if existing.status = "" then "active" else existing.status
          tiers := existing.tiers ++ [newTier] }
  | none =>
    doc.discounts ++ [⟨p.title, "active", p.normalizedProductIds.map ProductRef.str, [newTier]⟩]

/-- The deactivation call issued right after creation when the same-title
rule is inactive (absent when creation returned no node id). -/
def createDeactivateTrace (doc : Doc) (p : CreateParsed) (discountId : Option String) :
    List RemoteCall :=
  if createExistingStatus doc p = "inactive" then
    match discountId with
    | some id => [RemoteCall.deactivateDiscount id]
    | none => []
  else []

/-- The document written back by the create action. -/
def createNextDocOf (doc : Doc) (p : CreateParsed) (discountId : Option String) : Doc :=
  ⟨createNextDiscountsOf doc p (createNewTierOf p discountId)⟩

/-- The product ids re-projected by the create action: the union (first
seen order) of the rule's previous and newly supplied product sets. -/
def createAffectedProductIds (doc : Doc) (p : CreateParsed) : List String :=
  dedupFirstSeen (createPreviousProductIds doc p ++ p.normalizedProductIds)

/-- The trace prefix of a create run that reached the document write: the
single creation, the conditional deactivation, the document write. -/
def createBaseTrace (doc : Doc) (p : CreateParsed) (discountId : Option String) :
    List RemoteCall :=
  RemoteCall.createDiscount (createDiscountInputOf p) ::
    createDeactivateTrace doc p discountId ++
    [RemoteCall.setShopMetafield (createNextDocOf doc p discountId)]

/-- The write-and-reproject phase of the create action, after the remote
discount creation has succeeded. -/
def createAfterCreate (admin : Admin) (doc : Doc) (p : CreateParsed)
    (discountId : Option String) : ActionResult × List RemoteCall :=
  if admin.shopSetResp (createNextDocOf doc p discountId) ≠ [] then
    (⟨false, admin.shopSetResp (createNextDocOf doc p discountId)⟩,
     createBaseTrace doc p discountId)
  else
    if (recomputeProjections admin (createNextDocOf doc p discountId).discounts
          ((createAffectedProductIds doc p).map ProductRef.str)).1 ≠ [] then
      (⟨false,
        (recomputeProjections admin (createNextDocOf doc p discountId).discounts
          ((createAffectedProductIds doc p).map ProductRef.str)).1⟩,
       createBaseTrace doc p discountId ++
         (recomputeProjections admin (createNextDocOf doc p discountId).discounts
           ((createAffectedProductIds doc p).map ProductRef.str)).2)
    else
      (⟨true, []⟩,
       createBaseTrace doc p discountId ++
         (recomputeProjections admin (createNextDocOf doc p discountId).discounts
           ((createAffectedProductIds doc p).map ProductRef.str)).2)

/-- The create-rule / add-tier action: validate (collecting every
violation), create exactly one remote discount, deactivate it when the
existing same-title rule is inactive, append the tier to that rule
(replacing its product set) or append a fresh active rule, persist, then
re-project the union of the rule's previous and new product sets. -/
def createRuleAction (admin : Admin) (doc : Doc) (input : CreateInput) :
    ActionResult × List RemoteCall :=
  if createErrorsOf (parseCreateInput input) ≠ [] then
    (⟨false, createErrorsOf (parseCreateInput input)⟩, [])
  else
    if (admin.createResp (createDiscountInputOf (parseCreateInput input))).userErrors ≠ [] then
      (⟨false, (admin.createResp (createDiscountInputOf (parseCreateInput input))).userErrors⟩,
       [RemoteCall.createDiscount (createDiscountInputOf (parseCreateInput input))])
    else
      createAfterCreate admin doc (parseCreateInput input)
        (admin.createResp (createDiscountInputOf (parseCreateInput input))).discountId

/-! ## Generic stability of the embedded sorts -/

theorem parsedTierLe_trans : ∀ (a b c : ParsedTier),
    parsedTierLe a b → parsedTierLe b c → parsedTierLe a c := by
  intro a b c
  simp only [parsedTierLe, decide_eq_true_eq]
  omega

theorem parsedTierLe_total : ∀ (a b : ParsedTier), parsedTierLe a b || parsedTierLe b a := by
  intro a b
  simp only [parsedTierLe, Bool.or_eq_true, decide_eq_true_eq]
  omega

/-! ## Trace-content lemmas -/

theorem mem_deleteDiscountsLoop_trace (admin : Admin) :
    ∀ (ids : List String), ∀ c ∈ (deleteDiscountsLoop admin ids).2,
      ∃ id, c = RemoteCall.deleteDiscount id
  | [] => by simp [deleteDiscountsLoop]
  | id :: rest => by
    intro c hc
    rw [deleteDiscountsLoop] at hc
    by_cases h : admin.deleteResp id ≠ []
    · rw [if_pos h] at hc
      exact ⟨id, List.mem_singleton.mp hc⟩
    · rw [if_neg h] at hc
      rcases List.mem_cons.mp hc with h' | h'
      · exact ⟨id, h'⟩
      · exact mem_deleteDiscountsLoop_trace admin rest c h'

theorem mem_statusCalls (nextStatus : String) (ids : List String) :
    ∀ c ∈ statusCalls nextStatus ids,
      (∃ id, c = RemoteCall.activateDiscount id) ∨ ∃ id, c = RemoteCall.deactivateDiscount id := by
  intro c hc
  rw [statusCalls] at hc
  obtain ⟨id, _, h⟩ := List.mem_map.mp hc
  by_cases hs : nextStatus = "inactive"
  · rw [if_pos hs] at h
    exact Or.inr ⟨id, h.symm⟩
  · rw [if_neg hs] at h
    exact Or.inl ⟨id, h.symm⟩

theorem mem_recompute_trace (admin : Admin) (discounts : List Rule)
    (affectedProductIds : List ProductRef) :
    ∀ c ∈ (recomputeProjections admin discounts affectedProductIds).2,
      ∃ entries, c = RemoteCall.setProductMetafields entries := by
  intro c hc
  rw [recomputeProjections_eq] at hc
  obtain ⟨entries, _, h⟩ := List.mem_map.mp hc
  exact ⟨entries, h.symm⟩

theorem mem_reconcileTiers_trace (admin : Admin) (ctx : ReconcileCtx) :
    ∀ (tiers acc : List ParsedTier), ∀ c ∈ (reconcileTiers admin ctx tiers acc).2,
      (∃ i, c = RemoteCall.createDiscount i) ∨ ∃ id i, c = RemoteCall.updateDiscount id i
  | [], acc => by simp [reconcileTiers]
  | tier :: rest, acc => by
    intro c hc
    rw [reconcileTiers] at hc
    split at hc
    · exact mem_reconcileTiers_trace admin ctx rest (acc ++ [tier]) c hc
    · split at hc
      · simp at hc
      · split at hc
        · split at hc
          · exact Or.inr ⟨tier.discount_id, _, List.mem_singleton.mp hc⟩
          · rcases List.mem_cons.mp hc with h' | h'
            · exact Or.inr ⟨tier.discount_id, _, h'⟩
            · exact mem_reconcileTiers_trace admin ctx rest (acc ++ [tier]) c h'
        · split at hc
          · exact Or.inl ⟨_, List.mem_singleton.mp hc⟩
          · split at hc
            · exact Or.inl ⟨_, List.mem_singleton.mp hc⟩
            · rcases List.mem_cons.mp hc with h' | h'
              · exact Or.inl ⟨_, h'⟩
              · exact mem_reconcileTiers_trace admin ctx rest _ c h'

/-- Every update mutation the loop issues carries the payload built with
`shouldUpdateExistingDiscount = true`. -/
theorem reconcileTiers_update_payload (admin : Admin) (ctx : ReconcileCtx) :
    ∀ (tiers acc : List ParsedTier) (id : String) (inp : DiscountInput),
      RemoteCall.updateDiscount id inp ∈ (reconcileTiers admin ctx tiers acc).2 →
      inp.products = updateProductsInput ctx true
  | [], acc => by simp [reconcileTiers]
  | tier :: rest, acc => by
    intro id inp hc
    rw [reconcileTiers] at hc
    split at hc
    · exact reconcileTiers_update_payload admin ctx rest (acc ++ [tier]) id inp hc
    · split at hc
      · simp at hc
      · split at hc
        case isTrue hupd =>
          split at hc
          · have h := List.mem_singleton.mp hc
            obtain ⟨h1, h2⟩ := RemoteCall.updateDiscount.inj h
            rw [h2, loopDiscountInput, tierDiscountInput, hupd]
          · rcases List.mem_cons.mp hc with h' | h'
            · obtain ⟨h1, h2⟩ := RemoteCall.updateDiscount.inj h'
              rw [h2, loopDiscountInput, tierDiscountInput, hupd]
            · exact reconcileTiers_update_payload admin ctx rest (acc ++ [tier]) id inp h'
        case isFalse =>
          split at hc
          · simp at hc
          · split at hc
            · simp at hc
            · rcases List.mem_cons.mp hc with h' | h'
              · simp at h'
              · exact reconcileTiers_update_payload admin ctx rest _ id inp h'

/-- A reconciled tier differs from its submitted form only in its
`discount_id`. -/
def stripDiscountId (tier : ParsedTier) : ParsedTier := { tier with discount_id := "" }

theorem reconcileTiers_ok_strip (admin : Admin) (ctx : ReconcileCtx) :
    ∀ (tiers acc result : List ParsedTier),
      (reconcileTiers admin ctx tiers acc).1 = .ok result →
      result.map stripDiscountId = (acc ++ tiers).map stripDiscountId
  | [], acc => by
    intro result h
    rw [reconcileTiers] at h
    simp only at h
    rw [← Except.ok.inj h]
    simp
  | tier :: rest, acc => by
    intro result h
    rw [reconcileTiers] at h
    split at h
    · have := reconcileTiers_ok_strip admin ctx rest (acc ++ [tier]) result h
      rw [this]
      simp
    · split at h
      · simp at h
      · split at h
        · split at h
          · simp at h
          · have := reconcileTiers_ok_strip admin ctx rest (acc ++ [tier]) result h
            rw [this]
            simp
        · split at h
          · simp at h
          · split at h
            · simp at h
            · rename_i createdDiscountId _
              have := reconcileTiers_ok_strip admin ctx rest
                (acc ++ [{ tier with discount_id := createdDiscountId }]) result h
              rw [this]
              simp [stripDiscountId]

/-- With a non-empty product set in the context, the guarded and guard-free
loops agree. -/
theorem reconcileTiers_eq_noGuard (admin : Admin) (ctx : ReconcileCtx)
    (hne : ctx.productIds ≠ []) :
    ∀ (tiers acc : List ParsedTier),
      reconcileTiers admin ctx tiers acc = reconcileTiersNoGuard admin ctx tiers acc
  | [], acc => by
    rw [reconcileTiers, reconcileTiersNoGuard]
  | tier :: rest, acc => by
    have ih := fun acc' => reconcileTiers_eq_noGuard admin ctx hne rest acc'
    rw [reconcileTiers, reconcileTiersNoGuard]
    by_cases hskip : (!shouldCreateTier tier && !shouldUpdateTier ctx tier) = true
    · rw [if_pos hskip, if_pos hskip, ih]
    · rw [if_neg hskip, if_neg hskip, if_neg (by simpa using hne)]
      simp only [ih]

/-- A successful delete cascade issues exactly one delete per id, in order. -/
theorem deleteDiscountsLoop_ok (admin : Admin) :
    ∀ (ids : List String), (∀ id ∈ ids, admin.deleteResp id = []) →
      deleteDiscountsLoop admin ids = (.ok (), ids.map RemoteCall.deleteDiscount)
  | [] => by
    intro _
    rw [deleteDiscountsLoop]
    rfl
  | id :: rest => by
    intro h
    rw [deleteDiscountsLoop,
      if_neg (by simpa using h id (List.mem_cons_self _ _)),
      deleteDiscountsLoop_ok admin rest (fun i hi => h i (List.mem_cons_of_mem _ hi))]
    rfl

/-- The delete cascade aborts with the errors of the first failing id. -/
theorem deleteDiscountsLoop_firstFail (admin : Admin) :
    ∀ (ids : List String) (badId : String),
      ids.find? (fun id => decide (admin.deleteResp id ≠ [])) = some badId →
      (deleteDiscountsLoop admin ids).1 = .error (admin.deleteResp badId)
  | [], badId => by simp
  | id :: rest, badId => by
    intro hfind
    rw [deleteDiscountsLoop]
    by_cases h : admin.deleteResp id ≠ []
    · rw [List.find?_cons_of_pos _ (by simpa using h)] at hfind
      rw [if_pos h]
      rw [Option.some.inj hfind]
    · rw [List.find?_cons_of_neg _ (by simpa using h)] at hfind
      rw [if_neg h]
      exact deleteDiscountsLoop_firstFail admin rest badId hfind

/-! ## Validation lemmas of the update action -/

theorem updateActionWith_of_validation (loop : Admin → ReconcileCtx → List ParsedTier →
      List ParsedTier → (Except (List String) (List ParsedTier)) × List RemoteCall)
    (admin : Admin) (doc : Doc) (input : UpdateInput) (tableHandle : String)
    (errors : List String) (h : updateValidationError input = some errors) :
    updateRuleActionWith loop admin doc input tableHandle = (⟨false, errors⟩, []) := by
  rw [updateRuleActionWith, h]

theorem updateValidationError_none_products {input : UpdateInput}
    (h : updateValidationError input = none) : normalizeProductIds input.products ≠ [] := by
  intro hempty
  rw [updateValidationError] at h
  by_cases h1 : jsTrim input.title = ""
  · rw [if_pos h1] at h
    exact Option.noConfusion h
  · rw [if_neg h1] at h
    by_cases h2 : jsToLower (jsTrim input.status) ≠ "active" ∧
        jsToLower (jsTrim input.status) ≠ "inactive"
    · rw [if_pos h2] at h
      exact Option.noConfusion h
    · rw [if_neg h2, if_pos hempty] at h
      exact Option.noConfusion h

theorem updateValidationError_isSome {input : UpdateInput}
    (hviol : jsTrim input.title = "" ∨
      (jsToLower (jsTrim input.status) ≠ "active" ∧
        jsToLower (jsTrim input.status) ≠ "inactive") ∨
      normalizeProductIds input.products = [] ∨
      input.tiers = [] ∨
      (∃ t ∈ input.tiers, invalidParsedTier (parseTier t) = true)) :
    ∃ errors, updateValidationError input = some errors := by
  rw [updateValidationError]
  by_cases h1 : jsTrim input.title = ""
  · rw [if_pos h1]
    exact ⟨_, rfl⟩
  · rw [if_neg h1]
    by_cases h2 : jsToLower (jsTrim input.status) ≠ "active" ∧
        jsToLower (jsTrim input.status) ≠ "inactive"
    · rw [if_pos h2]
      exact ⟨_, rfl⟩
    · rw [if_neg h2]
      by_cases h3 : normalizeProductIds input.products = []
      · rw [if_pos h3]
        exact ⟨_, rfl⟩
      · rw [if_neg h3]
        by_cases h4 : input.tiers.map parseTier = []
        · rw [if_pos h4]
          exact ⟨_, rfl⟩
        · rw [if_neg h4]
          cases hfind : (input.tiers.map parseTier).findIdx? invalidParsedTier with
          | some index => exact ⟨_, rfl⟩
          | none =>
            exfalso
            rcases hviol with h | h | h | h | h
            · exact h1 h
            · exact h2 h
            · exact h3 h
            · exact h4 (by rw [h]; rfl)
            · obtain ⟨t, ht, hinv⟩ := h
              have hmem : parseTier t ∈ input.tiers.map parseTier :=
                List.mem_map_of_mem parseTier ht
              have := List.findIdx?_eq_none_iff.mp hfind (parseTier t) hmem
              rw [hinv] at this
              exact Bool.noConfusion this

theorem updateValidationError_tier_message {input : UpdateInput} {index : Nat}
    (htitle : jsTrim input.title ≠ "")
    (hstatus : jsToLower (jsTrim input.status) = "active" ∨
      jsToLower (jsTrim input.status) = "inactive")
    (hprod : normalizeProductIds input.products ≠ [])
    (hfind : (input.tiers.map parseTier).findIdx? invalidParsedTier = some index) :
    updateValidationError input = some [tierValidationMessage (index + 1)] := by
  rw [updateValidationError]
  rw [if_neg htitle]
  rw [if_neg (by
    intro hcon
    rcases hstatus with h | h
    · exact hcon.1 h
    · exact hcon.2 h)]
  rw [if_neg hprod]
  rw [if_neg (by
    intro hcon
    rw [hcon] at hfind
    exact Option.noConfusion hfind)]
  rw [hfind]

/-- **C4.** Update-rule validation runs before any remote discount mutation:
each listed violation makes the operation fail with an empty mutation trace;
when the rule-level checks pass and some tier is invalid, the error names
the first offending tier by its 1-based position; and the spec's three
example tiers are rejected, rejected, and accepted respectively. -/
theorem updateRule_validation_spec :
    (∀ (admin : Admin) (doc : Doc) (input : UpdateInput) (tableHandle : String),
      (jsTrim input.title = "" ∨
       (jsToLower (jsTrim input.status) ≠ "active" ∧
         jsToLower (jsTrim input.status) ≠ "inactive") ∨
       normalizeProductIds input.products = [] ∨
       input.tiers = [] ∨
       (∃ t ∈ input.tiers, invalidParsedTier (parseTier t) = true)) →
      (updateRuleAction admin doc input tableHandle).1.ok = false ∧
      (updateRuleAction admin doc input tableHandle).2 = []) ∧
    (∀ (admin : Admin) (doc : Doc) (input : UpdateInput) (tableHandle : String) (index : Nat),
      jsTrim input.title ≠ "" →
      (jsToLower (jsTrim input.status) = "active" ∨
        jsToLower (jsTrim input.status) = "inactive") →
      normalizeProductIds input.products ≠ [] →
      (input.tiers.map parseTier).findIdx? invalidParsedTier = some index →
      updateRuleAction admin doc input tableHandle
        = (⟨false, [tierValidationMessage (index + 1)]⟩, [])) ∧
    invalidParsedTier (parseTier ⟨"T", .str "0", .str "10", "", []⟩) = true ∧
    invalidParsedTier (parseTier ⟨"T", .str "3", .str "101", "", []⟩) = true ∧
    invalidParsedTier (parseTier ⟨"T", .str "3", .str "10", "", []⟩) = false := by
  refine ⟨?_, ?_, by decide, by decide, by decide⟩
  · intro admin doc input tableHandle hviol
    obtain ⟨errors, hval⟩ := updateValidationError_isSome hviol
    rw [updateRuleAction, updateActionWith_of_validation reconcileTiers admin doc input
      tableHandle errors hval]
    exact ⟨rfl, rfl⟩
  · intro admin doc input tableHandle index htitle hstatus hprod hfind
    rw [updateRuleAction, updateActionWith_of_validation reconcileTiers admin doc input
      tableHandle _ (updateValidationError_tier_message htitle hstatus hprod hfind)]

/-- Witness for C4: a concrete request whose only tier has
`min_quantity = "0"` fails with the tier-1 validation message and an empty
mutation trace. -/
theorem updateRule_validation_spec_witness :
    updateRuleAction
      { createResp := fun _ => ⟨[], none⟩
        updateResp := fun _ _ => []
        deleteResp := fun _ => []
        shopSetResp := fun _ => []
        productSetResp := fun _ => [] }
      ⟨[]⟩
      ⟨"r1", "active", [⟨"T", .str "0", .str "10", "", []⟩],
        [.str "gid://shopify/Product/1"]⟩ "r1"
      = (⟨false, [tierValidationMessage 1]⟩, []) :=
  updateRule_validation_spec.2.1 _ _ _ _ 0 (by decide)
    (Or.inl (by decide)) (by decide) (by decide)

/-! ## Concrete fixtures used by witnesses and counterexamples -/

def prodGid1 : String := "gid://shopify/Product/1"
def prodGid2 : String := "gid://shopify/Product/2"
def prodGid3 : String := "gid://shopify/Product/3"

/-- A stored rule `r1` with one materialized tier over products 1 and 2. -/
def tierFixA : Tier := ⟨"A", some 5, some 10, "d1", []⟩

def ruleFixA : Rule := ⟨"r1", "active", [.str prodGid1, .str prodGid2], [tierFixA]⟩

def docFixA : Doc := ⟨[ruleFixA]⟩

/-- An oracle whose every mutation succeeds. -/
def adminOk : Admin :=
  { createResp := fun _ => ⟨[], some "dNew"⟩
    updateResp := fun _ _ => []
    deleteResp := fun _ => []
    shopSetResp := fun _ => []
    productSetResp := fun _ => [] }

/-- A submitted tier reusing discount `d1` with a changed title. -/
def rawTierB : RawTier := ⟨"B", .str "5", .str "10", "d1", []⟩

/-- An update request that both renames the tier and changes the product
set from `{1, 2}` to `{2, 3}`. -/
def inputFixB : UpdateInput := ⟨"r1", "active", [rawTierB], [.str prodGid2, .str prodGid3]⟩

/-! ## Structural lemmas of the update action -/

theorem updateRuleActionWith_eq
    (loop : Admin → ReconcileCtx → List ParsedTier → List ParsedTier →
      (Except (List String) (List ParsedTier)) × List RemoteCall)
    (admin : Admin) (doc : Doc) (input : UpdateInput) (tableHandle : String) (ruleIndex : Nat)
    (hval : updateValidationError input = none)
    (hfind : findRuleIndex doc.discounts tableHandle = some ruleIndex) :
    updateRuleActionWith loop admin doc input tableHandle
      = updateRuleReconcile loop admin doc input ruleIndex := by
  rw [updateRuleActionWith, hval, hfind]

/-- Case analysis of the update action's post-lookup trace: every mutation
is a loop creation, a loop update (whose payload was built with
`shouldUpdateExistingDiscount = true`), a removed-tier delete, a status
call, the document write, or a projection batch write. -/
theorem updateRuleReconcile_trace_cases (admin : Admin) (doc : Doc) (input : UpdateInput)
    (ruleIndex : Nat) (c : RemoteCall)
    (hc : c ∈ (updateRuleReconcile reconcileTiers admin doc input ruleIndex).2) :
    (∃ i, c = RemoteCall.createDiscount i) ∨
    (∃ id i, c = RemoteCall.updateDiscount id i ∧
      i.products = updateProductsInput (updateRuleCtx doc input ruleIndex) true) ∨
    (∃ id, c = RemoteCall.deleteDiscount id) ∨
    (∃ id, c = RemoteCall.activateDiscount id) ∨
    (∃ id, c = RemoteCall.deactivateDiscount id) ∨
    (∃ d, c = RemoteCall.setShopMetafield d) ∨
    (∃ entries, c = RemoteCall.setProductMetafields entries) := by
  rw [updateRuleReconcile] at hc
  rcases hloop : reconcileTiers admin (updateRuleCtx doc input ruleIndex)
      (updateSortedTiers input) [] with ⟨res, loopTrace⟩
  rw [hloop] at hc
  have hloopPiece : c ∈ loopTrace →
      (∃ i, c = RemoteCall.createDiscount i) ∨
      (∃ id i, c = RemoteCall.updateDiscount id i ∧
        i.products = updateProductsInput (updateRuleCtx doc input ruleIndex) true) := by
    intro h
    have hmem : c ∈ (reconcileTiers admin (updateRuleCtx doc input ruleIndex)
        (updateSortedTiers input) []).2 := by
      rw [hloop]
      exact h
    rcases mem_reconcileTiers_trace admin (updateRuleCtx doc input ruleIndex)
        (updateSortedTiers input) [] c hmem with ⟨i, hi⟩ | ⟨id, i, hi⟩
    · exact Or.inl ⟨i, hi⟩
    · refine Or.inr ⟨id, i, hi, ?_⟩
      exact reconcileTiers_update_payload admin (updateRuleCtx doc input ruleIndex)
        (updateSortedTiers input) [] id i (hi ▸ hmem)
  cases res with
  | error errors =>
    have hc' : c ∈ loopTrace := hc
    rcases hloopPiece hc' with h | h
    · exact Or.inl h
    · exact Or.inr (Or.inl h)
  | ok reconciledTiers =>
    have hc0 : c ∈ (updateAfterLoop admin doc input ruleIndex reconciledTiers loopTrace).2 := hc
    clear hc
    rw [updateAfterLoop] at hc0
    rcases hdel : deleteDiscountsLoop admin
        (updateRemovedDiscountIds doc ruleIndex reconciledTiers) with ⟨dres, deleteTrace⟩
    rw [hdel] at hc0
    have hdelPiece : c ∈ deleteTrace → ∃ id, c = RemoteCall.deleteDiscount id := by
      intro h
      refine mem_deleteDiscountsLoop_trace admin
        (updateRemovedDiscountIds doc ruleIndex reconciledTiers) c ?_
      rw [hdel]
      exact h
    cases dres with
    | error errors =>
      have hc' : c ∈ loopTrace ++ deleteTrace := hc0
      rcases List.mem_append.mp hc' with h | h
      · rcases hloopPiece h with h' | h'
        · exact Or.inl h'
        · exact Or.inr (Or.inl h')
      · exact Or.inr (Or.inr (Or.inl (hdelPiece h)))
    | ok u =>
      have hc1 : c ∈ (updateAfterDelete admin doc input ruleIndex reconciledTiers
          loopTrace deleteTrace).2 := hc0
      clear hc0
      rw [updateAfterDelete] at hc1
      have hc' : c ∈ updateBaseTrace doc input ruleIndex reconciledTiers loopTrace deleteTrace ++
          (recomputeProjections admin
            (updateWrittenDoc doc input ruleIndex reconciledTiers).discounts
            ((updateAffectedProductIds doc input ruleIndex).map ProductRef.str)).2 := by
        split at hc1
        · exact List.mem_append_left _ hc1
        · split at hc1
          · exact hc1
          · exact hc1
      rcases List.mem_append.mp hc' with h | h
      · rw [updateBaseTrace] at h
        rcases List.mem_append.mp h with h1 | h1
        · rcases List.mem_append.mp h1 with h2 | h2
          · rcases List.mem_append.mp h2 with h3 | h3
            · rcases hloopPiece h3 with h' | h'
              · exact Or.inl h'
              · exact Or.inr (Or.inl h')
            · exact Or.inr (Or.inr (Or.inl (hdelPiece h3)))
          · rcases mem_statusCalls _ _ c h2 with ⟨i, hi⟩ | ⟨i, hi⟩
            · exact Or.inr (Or.inr (Or.inr (Or.inl ⟨i, hi⟩)))
            · exact Or.inr (Or.inr (Or.inr (Or.inr (Or.inl ⟨i, hi⟩))))
        · exact Or.inr (Or.inr (Or.inr (Or.inr (Or.inr (Or.inl
            ⟨_, List.mem_singleton.mp h1⟩)))))
      · exact Or.inr (Or.inr (Or.inr (Or.inr (Or.inr (Or.inr
          (mem_recompute_trace admin _ _ c h))))))

/-! ## C10: the in-loop product guard is dead code -/

/-- **C10.** The `productIds.length === 0` guard inside the per-tier loop is
unreachable: the update action built on the guard-free loop is extensionally
equal to the real one, because validation has already rejected an empty
normalized product set and the loop context carries that product list
unchanged. -/
theorem updateRule_guard_unreachable (admin : Admin) (doc : Doc) (input : UpdateInput)
    (tableHandle : String) :
    updateRuleAction admin doc input tableHandle
      = updateRuleActionNoGuard admin doc input tableHandle := by
  rw [updateRuleAction, updateRuleActionNoGuard]
  cases hval : updateValidationError input with
  | some errors =>
    rw [updateActionWith_of_validation reconcileTiers admin doc input tableHandle errors hval,
      updateActionWith_of_validation reconcileTiersNoGuard admin doc input tableHandle errors hval]
  | none =>
    cases hfind : findRuleIndex doc.discounts tableHandle with
    | none => rw [updateRuleActionWith, updateRuleActionWith, hval, hfind]
    | some ruleIndex =>
      rw [updateRuleActionWith_eq reconcileTiers admin doc input tableHandle ruleIndex hval hfind,
        updateRuleActionWith_eq reconcileTiersNoGuard admin doc input tableHandle ruleIndex
          hval hfind]
      have hne : (updateRuleCtx doc input ruleIndex).productIds ≠ [] := by
        simpa [updateRuleCtx] using updateValidationError_none_products hval
      unfold updateRuleReconcile
      rw [reconcileTiers_eq_noGuard admin (updateRuleCtx doc input ruleIndex) hne]

/-! ## C1: product payload of the per-tier update mutations -/

/-- Every remote discount update the update action issues carries the
incremental `productsToAdd`/`productsToRemove` payload whenever the rule's
product set changed (whether or not the tier's own fields also changed),
and the full desired `productsToAdd` list only when the product set is
unchanged (i.e. only the tier's fields changed). -/
theorem updateRule_update_payload (admin : Admin) (doc : Doc) (input : UpdateInput)
    (tableHandle : String) (ruleIndex : Nat)
    (hfind : findRuleIndex doc.discounts tableHandle = some ruleIndex) :
    ∀ (id : String) (inp : DiscountInput),
      RemoteCall.updateDiscount id inp ∈ (updateRuleAction admin doc input tableHandle).2 →
      ((updateRuleCtx doc input ruleIndex).productsChanged = true →
        inp.products =
          { productsToAdd :=
              if (updateRuleCtx doc input ruleIndex).addedProductIds ≠ []
              then some (updateRuleCtx doc input ruleIndex).addedProductIds else none
            productsToRemove :=
              if (updateRuleCtx doc input ruleIndex).removedProductIds ≠ []
              then some (updateRuleCtx doc input ruleIndex).removedProductIds else none }) ∧
      ((updateRuleCtx doc input ruleIndex).productsChanged = false →
        inp.products =
          { productsToAdd := some (updateRuleCtx doc input ruleIndex).productIds
            productsToRemove := none }) := by
  intro id inp hmem
  have hpay : inp.products = updateProductsInput (updateRuleCtx doc input ruleIndex) true := by
    rw [updateRuleAction] at hmem
    cases hval : updateValidationError input with
    | some errors =>
      rw [updateRuleActionWith, hval] at hmem
      simp at hmem
    | none =>
      rw [updateRuleActionWith_eq reconcileTiers admin doc input tableHandle ruleIndex
        hval hfind] at hmem
      rcases updateRuleReconcile_trace_cases admin doc input ruleIndex _ hmem with
        ⟨i, hi⟩ | ⟨id2, i, hi, hp⟩ | ⟨i, hi⟩ | ⟨i, hi⟩ | ⟨i, hi⟩ | ⟨d, hd⟩ | ⟨e, he⟩
      · exact absurd hi (by simp)
      · obtain ⟨h1, h2⟩ := RemoteCall.updateDiscount.inj hi
        rw [← h2] at hp
        exact hp
      · exact absurd hi (by simp)
      · exact absurd hi (by simp)
      · exact absurd hi (by simp)
      · exact absurd hd (by simp)
      · exact absurd he (by simp)
  constructor
  · intro hchanged
    rw [hpay, updateProductsInput, if_pos (by rw [hchanged]; rfl)]
  · intro hunchanged
    rw [hpay, updateProductsInput, if_neg (by rw [hunchanged]; simp)]

/-- Counterexample to C1 as stated: updating rule `r1` with tier `d1`'s
fields changed (title `"A"` → `"B"`) *and* the product set changed
(`{1,2}` → `{2,3}`), the single remote update issued carries the
incremental `productsToAdd = [3]` / `productsToRemove = [1]` payload — not
the full desired product list the claim promises for a changed tier. -/
theorem updateRule_full_payload_refuted :
    tierChanged (previousTierFor ruleFixA.tiers "d1") (parseTier rawTierB) = true ∧
    (updateRuleAction adminOk docFixA inputFixB "r1").2 =
      [RemoteCall.updateDiscount "d1"
        ⟨"B", 5, 10, ⟨some [prodGid3], some [prodGid1]⟩⟩,
       RemoteCall.activateDiscount "d1",
       RemoteCall.setShopMetafield
         ⟨[⟨"r1", "active", [.str prodGid2, .str prodGid3],
            [⟨"B", some 5, some 10, "d1", []⟩]⟩]⟩,
       RemoteCall.setProductMetafields
         [⟨prodGid1, []⟩, ⟨prodGid2, [⟨5, 10⟩]⟩, ⟨prodGid3, [⟨5, 10⟩]⟩]] ∧
    (⟨some [prodGid3], some [prodGid1]⟩ : ProductsInput) ≠
      ⟨some (normalizeProductIds inputFixB.products), none⟩ := by
  refine ⟨by decide, by decide, by decide⟩

/-- Witness for the amended C1 at the same concrete run: the issued update's
payload equals the incremental payload of the (changed) product diff. -/
theorem updateRule_update_payload_witness :
    (⟨"B", 5, 10, ⟨some [prodGid3], some [prodGid1]⟩⟩ : DiscountInput).products =
      { productsToAdd :=
          if (updateRuleCtx docFixA inputFixB 0).addedProductIds ≠ []
          then some (updateRuleCtx docFixA inputFixB 0).addedProductIds else none
        productsToRemove :=
          if (updateRuleCtx docFixA inputFixB 0).removedProductIds ≠ []
          then some (updateRuleCtx docFixA inputFixB 0).removedProductIds else none } :=
  (updateRule_update_payload adminOk docFixA inputFixB "r1" 0 (by decide) "d1"
    ⟨"B", 5, 10, ⟨some [prodGid3], some [prodGid1]⟩⟩ (by decide)).1 (by decide)

/-! ## C3: the delete-rule cascade -/

theorem deleteRuleAction_eq (admin : Admin) (doc : Doc) (tableHandle : String)
    (ruleIndex : Nat) (hfind : findRuleIndex doc.discounts tableHandle = some ruleIndex) :
    deleteRuleAction admin doc tableHandle = deleteRuleLocated admin doc ruleIndex := by
  rw [deleteRuleAction, hfind]

/-- **C3.** The delete-rule operation deletes every non-empty discount id
the rule's tiers carry; if some delete reports user errors, the operation
returns the first failing delete's errors, no document write is issued and
no projection write happens; when every delete succeeds, the trace is
exactly one delete per id (in order) followed by the document write with
the rule removed at its index and the projection recompute of the rule's
products. -/
theorem deleteRule_cascade_spec (admin : Admin) (doc : Doc) (tableHandle : String)
    (ruleIndex : Nat) (hfind : findRuleIndex doc.discounts tableHandle = some ruleIndex) :
    (∀ badId,
      (storedDiscountIds (doc.discounts.getD ruleIndex emptyRule).tiers).find?
          (fun id => decide (admin.deleteResp id ≠ [])) = some badId →
      (deleteRuleAction admin doc tableHandle).1 = ⟨false, admin.deleteResp badId⟩ ∧
      (∀ d, RemoteCall.setShopMetafield d ∉ (deleteRuleAction admin doc tableHandle).2) ∧
      (∀ entries,
        RemoteCall.setProductMetafields entries ∉ (deleteRuleAction admin doc tableHandle).2)) ∧
    ((∀ id ∈ storedDiscountIds (doc.discounts.getD ruleIndex emptyRule).tiers,
        admin.deleteResp id = []) →
      admin.shopSetResp (deleteRuleNextDoc doc ruleIndex) = [] →
      (deleteRuleAction admin doc tableHandle).2 =
        (storedDiscountIds (doc.discounts.getD ruleIndex emptyRule).tiers).map
          RemoteCall.deleteDiscount ++
        [RemoteCall.setShopMetafield (deleteRuleNextDoc doc ruleIndex)] ++
        (recomputeProjections admin (deleteRuleNextDoc doc ruleIndex).discounts
          ((getRuleProductIds (doc.discounts.getD ruleIndex emptyRule)).map
            ProductRef.str)).2) := by
  rw [deleteRuleAction_eq admin doc tableHandle ruleIndex hfind]
  constructor
  · intro badId hbad
    rw [deleteRuleLocated]
    rcases hdel : deleteDiscountsLoop admin
        (storedDiscountIds (doc.discounts.getD ruleIndex emptyRule).tiers)
        with ⟨dres, deleteTrace⟩
    have hfail := deleteDiscountsLoop_firstFail admin _ badId hbad
    rw [hdel] at hfail
    cases dres with
    | error errors =>
      have herr : errors = admin.deleteResp badId := Except.error.inj hfail
      subst herr
      refine ⟨rfl, ?_, ?_⟩
      · intro d hd
        obtain ⟨i, hi⟩ := mem_deleteDiscountsLoop_trace admin _ _ (by rw [hdel]; exact hd)
        exact RemoteCall.noConfusion hi
      · intro entries hent
        obtain ⟨i, hi⟩ := mem_deleteDiscountsLoop_trace admin _ _ (by rw [hdel]; exact hent)
        exact RemoteCall.noConfusion hi
    | ok u => exact Except.noConfusion hfail
  · intro hok hset
    rw [deleteRuleLocated, deleteDiscountsLoop_ok admin _ hok]
    show (deleteAfterCascade admin doc ruleIndex
      ((storedDiscountIds (doc.discounts.getD ruleIndex emptyRule).tiers).map
        RemoteCall.deleteDiscount)).2 = _
    rw [deleteAfterCascade, if_neg (by simpa using hset)]
    split <;> rfl

/-- An oracle whose discount deletions all fail. -/
def adminDeleteFails : Admin :=
  { createResp := fun _ => ⟨[], some "dNew"⟩
    updateResp := fun _ _ => []
    deleteResp := fun _ => ["delete failed"]
    shopSetResp := fun _ => []
    productSetResp := fun _ => [] }

/-- Witness for C3: deleting `r1` under a failing delete oracle aborts with
that error and without a document write; under the all-success oracle the
trace is the delete, the document write and the projection batch. -/
theorem deleteRule_cascade_spec_witness :
    ((deleteRuleAction adminDeleteFails docFixA "r1").1 = ⟨false, ["delete failed"]⟩ ∧
      RemoteCall.setShopMetafield ⟨[]⟩ ∉ (deleteRuleAction adminDeleteFails docFixA "r1").2) ∧
    (deleteRuleAction adminOk docFixA "r1").2 =
      (storedDiscountIds (docFixA.discounts.getD 0 emptyRule).tiers).map
        RemoteCall.deleteDiscount ++
      [RemoteCall.setShopMetafield (deleteRuleNextDoc docFixA 0)] ++
      (recomputeProjections adminOk (deleteRuleNextDoc docFixA 0).discounts
        ((getRuleProductIds (docFixA.discounts.getD 0 emptyRule)).map ProductRef.str)).2 := by
  refine ⟨⟨?_, ?_⟩, ?_⟩
  · exact ((deleteRule_cascade_spec adminDeleteFails docFixA "r1" 0 (by decide)).1
      "d1" (by decide)).1
  · exact ((deleteRule_cascade_spec adminDeleteFails docFixA "r1" 0 (by decide)).1
      "d1" (by decide)).2.1 ⟨[]⟩
  · exact (deleteRule_cascade_spec adminOk docFixA "r1" 0 (by decide)).2
      (by decide) (by decide)

/-! ## C6: re-projection is strictly post-commit -/

theorem updateBaseTrace_no_products {doc : Doc} {input : UpdateInput} {ruleIndex : Nat}
    {reconciledTiers : List ParsedTier} {loopTrace deleteTrace : List RemoteCall}
    (hlt : ∀ c ∈ loopTrace,
      (∃ i, c = RemoteCall.createDiscount i) ∨ ∃ id i, c = RemoteCall.updateDiscount id i)
    (hdt : ∀ c ∈ deleteTrace, ∃ id, c = RemoteCall.deleteDiscount id)
    (entries : List ProductMetafield) :
    RemoteCall.setProductMetafields entries ∉
      updateBaseTrace doc input ruleIndex reconciledTiers loopTrace deleteTrace := by
  intro h
  rw [updateBaseTrace] at h
  rcases List.mem_append.mp h with h1 | h1
  · rcases List.mem_append.mp h1 with h2 | h2
    · rcases List.mem_append.mp h2 with h3 | h3
      · rcases hlt _ h3 with ⟨i, hi⟩ | ⟨id, i, hi⟩ <;> simp at hi
      · obtain ⟨id, hi⟩ := hdt _ h3
        simp at hi
    · rcases mem_statusCalls _ _ _ h2 with ⟨i, hi⟩ | ⟨i, hi⟩ <;> simp at hi
  · have := List.mem_singleton.mp h1
    simp at this

/-- **C6.** In both the update-rule and delete-rule operations, a projection
batch write can appear in the trace only when the document write succeeded;
the re-projection recomputes exactly the union of previous and new product
sets (for delete, the deleted rule's products); and when the recompute
reports errors they become the returned error list while the already
committed document write stays in the trace (nothing is rolled back). -/
theorem projection_post_commit_spec :
    (∀ (admin : Admin) (doc : Doc) (input : UpdateInput) (tableHandle : String)
        (entries : List ProductMetafield),
      RemoteCall.setProductMetafields entries ∈ (updateRuleAction admin doc input tableHandle).2 →
      updateValidationError input = none ∧
      ∃ ruleIndex reconciledTiers loopTrace deleteTrace,
        findRuleIndex doc.discounts tableHandle = some ruleIndex ∧
        admin.shopSetResp (updateWrittenDoc doc input ruleIndex reconciledTiers) = [] ∧
        (updateRuleAction admin doc input tableHandle).2 =
          updateBaseTrace doc input ruleIndex reconciledTiers loopTrace deleteTrace ++
            (recomputeProjections admin
              (updateWrittenDoc doc input ruleIndex reconciledTiers).discounts
              ((updateAffectedProductIds doc input ruleIndex).map ProductRef.str)).2 ∧
        (((recomputeProjections admin
              (updateWrittenDoc doc input ruleIndex reconciledTiers).discounts
              ((updateAffectedProductIds doc input ruleIndex).map ProductRef.str)).1 ≠ [] ∧
          (updateRuleAction admin doc input tableHandle).1 =
            ⟨false, (recomputeProjections admin
              (updateWrittenDoc doc input ruleIndex reconciledTiers).discounts
              ((updateAffectedProductIds doc input ruleIndex).map ProductRef.str)).1⟩) ∨
         ((recomputeProjections admin
              (updateWrittenDoc doc input ruleIndex reconciledTiers).discounts
              ((updateAffectedProductIds doc input ruleIndex).map ProductRef.str)).1 = [] ∧
          (updateRuleAction admin doc input tableHandle).1 = ⟨true, []⟩))) ∧
    (∀ (admin : Admin) (doc : Doc) (tableHandle : String) (entries : List ProductMetafield),
      RemoteCall.setProductMetafields entries ∈ (deleteRuleAction admin doc tableHandle).2 →
      ∃ ruleIndex deleteTrace,
        findRuleIndex doc.discounts tableHandle = some ruleIndex ∧
        admin.shopSetResp (deleteRuleNextDoc doc ruleIndex) = [] ∧
        (deleteRuleAction admin doc tableHandle).2 =
          deleteTrace ++ [RemoteCall.setShopMetafield (deleteRuleNextDoc doc ruleIndex)] ++
            (recomputeProjections admin (deleteRuleNextDoc doc ruleIndex).discounts
              ((getRuleProductIds (doc.discounts.getD ruleIndex emptyRule)).map
                ProductRef.str)).2 ∧
        (((recomputeProjections admin (deleteRuleNextDoc doc ruleIndex).discounts
              ((getRuleProductIds (doc.discounts.getD ruleIndex emptyRule)).map
                ProductRef.str)).1 ≠ [] ∧
          (deleteRuleAction admin doc tableHandle).1 =
            ⟨false, (recomputeProjections admin (deleteRuleNextDoc doc ruleIndex).discounts
              ((getRuleProductIds (doc.discounts.getD ruleIndex emptyRule)).map
                ProductRef.str)).1⟩) ∨
         ((recomputeProjections admin (deleteRuleNextDoc doc ruleIndex).discounts
              ((getRuleProductIds (doc.discounts.getD ruleIndex emptyRule)).map
                ProductRef.str)).1 = [] ∧
          (deleteRuleAction admin doc tableHandle).1 = ⟨true, []⟩))) := by
  constructor
  · intro admin doc input tableHandle entries hmem
    cases hval : updateValidationError input with
    | some errors =>
      rw [updateRuleAction, updateRuleActionWith, hval] at hmem
      simp at hmem
    | none =>
      refine ⟨rfl, ?_⟩
      cases hfind : findRuleIndex doc.discounts tableHandle with
      | none =>
        rw [updateRuleAction, updateRuleActionWith, hval, hfind] at hmem
        simp at hmem
      | some ruleIndex =>
        rw [updateRuleAction,
          updateRuleActionWith_eq reconcileTiers admin doc input tableHandle ruleIndex
            hval hfind] at hmem ⊢
        rcases hloop : reconcileTiers admin (updateRuleCtx doc input ruleIndex)
            (updateSortedTiers input) [] with ⟨res, loopTrace⟩
        have hlt : ∀ c ∈ loopTrace,
            (∃ i, c = RemoteCall.createDiscount i) ∨
            ∃ id i, c = RemoteCall.updateDiscount id i := by
          intro c hcm
          exact mem_reconcileTiers_trace admin (updateRuleCtx doc input ruleIndex)
            (updateSortedTiers input) [] c (by rw [hloop]; exact hcm)
        cases res with
        | error errors =>
          have hstep : updateRuleReconcile reconcileTiers admin doc input ruleIndex
              = (⟨false, errors⟩, loopTrace) := by
            rw [updateRuleReconcile, hloop]
          rw [hstep] at hmem
          rcases hlt _ hmem with ⟨i, hi⟩ | ⟨id, i, hi⟩ <;> simp at hi
        | ok reconciledTiers =>
          have hstep : updateRuleReconcile reconcileTiers admin doc input ruleIndex
              = updateAfterLoop admin doc input ruleIndex reconciledTiers loopTrace := by
            rw [updateRuleReconcile, hloop]
          rw [hstep] at hmem ⊢
          rcases hdel : deleteDiscountsLoop admin
              (updateRemovedDiscountIds doc ruleIndex reconciledTiers)
              with ⟨dres, deleteTrace⟩
          have hdt : ∀ c ∈ deleteTrace, ∃ id, c = RemoteCall.deleteDiscount id := by
            intro c hcm
            exact mem_deleteDiscountsLoop_trace admin _ c (by rw [hdel]; exact hcm)
          cases dres with
          | error errors =>
            have hstep2 : updateAfterLoop admin doc input ruleIndex reconciledTiers loopTrace
                = (⟨false, errors⟩, loopTrace ++ deleteTrace) := by
              rw [updateAfterLoop, hdel]
            rw [hstep2] at hmem
            rcases List.mem_append.mp hmem with h | h
            · rcases hlt _ h with ⟨i, hi⟩ | ⟨id, i, hi⟩ <;> simp at hi
            · obtain ⟨id, hi⟩ := hdt _ h
              simp at hi
          | ok u =>
            have hstep2 : updateAfterLoop admin doc input ruleIndex reconciledTiers loopTrace
                = updateAfterDelete admin doc input ruleIndex reconciledTiers
                    loopTrace deleteTrace := by
              rw [updateAfterLoop, hdel]
            rw [hstep2] at hmem ⊢
            rw [updateAfterDelete] at hmem ⊢
            by_cases hshop :
                admin.shopSetResp (updateWrittenDoc doc input ruleIndex reconciledTiers) ≠ []
            · rw [if_pos hshop] at hmem
              exact absurd hmem (updateBaseTrace_no_products hlt hdt entries)
            · rw [if_neg hshop] at hmem ⊢
              by_cases hpe : (recomputeProjections admin
                  (updateWrittenDoc doc input ruleIndex reconciledTiers).discounts
                  ((updateAffectedProductIds doc input ruleIndex).map ProductRef.str)).1 ≠ []
              · rw [if_pos hpe] at hmem ⊢
                exact ⟨ruleIndex, reconciledTiers, loopTrace, deleteTrace, rfl,
                  not_not.mp hshop, rfl, Or.inl ⟨hpe, rfl⟩⟩
              · rw [if_neg hpe] at hmem ⊢
                exact ⟨ruleIndex, reconciledTiers, loopTrace, deleteTrace, rfl,
                  not_not.mp hshop, rfl, Or.inr ⟨not_not.mp hpe, rfl⟩⟩
  · intro admin doc tableHandle entries hmem
    cases hfind : findRuleIndex doc.discounts tableHandle with
    | none =>
      rw [deleteRuleAction, hfind] at hmem
      simp at hmem
    | some ruleIndex =>
      rw [deleteRuleAction_eq admin doc tableHandle ruleIndex hfind] at hmem ⊢
      rcases hdel : deleteDiscountsLoop admin
          (storedDiscountIds (doc.discounts.getD ruleIndex emptyRule).tiers)
          with ⟨dres, deleteTrace⟩
      have hdt : ∀ c ∈ deleteTrace, ∃ id, c = RemoteCall.deleteDiscount id := by
        intro c hcm
        exact mem_deleteDiscountsLoop_trace admin _ c (by rw [hdel]; exact hcm)
      cases dres with
      | error errors =>
        have hstep : deleteRuleLocated admin doc ruleIndex = (⟨false, errors⟩, deleteTrace) := by
          rw [deleteRuleLocated, hdel]
        rw [hstep] at hmem
        obtain ⟨id, hi⟩ := hdt _ hmem
        simp at hi
      | ok u =>
        have hstep : deleteRuleLocated admin doc ruleIndex
            = deleteAfterCascade admin doc ruleIndex deleteTrace := by
          rw [deleteRuleLocated, hdel]
        rw [hstep] at hmem ⊢
        rw [deleteAfterCascade] at hmem ⊢
        by_cases hshop : admin.shopSetResp (deleteRuleNextDoc doc ruleIndex) ≠ []
        · rw [if_pos hshop] at hmem
          rcases List.mem_append.mp hmem with h | h
          · obtain ⟨id, hi⟩ := hdt _ h
            simp at hi
          · have := List.mem_singleton.mp h
            simp at this
        · rw [if_neg hshop] at hmem ⊢
          by_cases hpe : (recomputeProjections admin (deleteRuleNextDoc doc ruleIndex).discounts
              ((getRuleProductIds (doc.discounts.getD ruleIndex emptyRule)).map
                ProductRef.str)).1 ≠ []
          · rw [if_pos hpe] at hmem ⊢
            exact ⟨ruleIndex, deleteTrace, rfl, not_not.mp hshop, rfl, Or.inl ⟨hpe, rfl⟩⟩
          · rw [if_neg hpe] at hmem ⊢
            exact ⟨ruleIndex, deleteTrace, rfl, not_not.mp hshop, rfl,
              Or.inr ⟨not_not.mp hpe, rfl⟩⟩

/-- Witness for C6: the all-success update run of the concrete fixture does
contain a projection batch write, so the theorem applies and yields, e.g.,
that its request passed validation. -/
theorem projection_post_commit_spec_witness :
    updateValidationError inputFixB = none :=
  (projection_post_commit_spec.1 adminOk docFixA inputFixB "r1"
    [⟨prodGid1, []⟩, ⟨prodGid2, [⟨5, 10⟩]⟩, ⟨prodGid3, [⟨5, 10⟩]⟩] (by decide)).1

/-! ## C5: the persisted tier list is sorted, the sort is stable, the rule
keeps its index -/

/-- The threshold of a stored tier (`0` for an absent field, which cannot
occur in tiers written by the update action). -/
def storedMinKey (tier : Tier) : ℚ := tier.min_quantity.getD 0

theorem storedMinKey_storeParsedTier (tier : ParsedTier) :
    storedMinKey (storeParsedTier tier) = ((tierMinKey tier : Int) : ℚ) := by
  cases h : tier.min_quantity with
  | none => simp [storedMinKey, storeParsedTier, tierMinKey, h]
  | some n => simp [storedMinKey, storeParsedTier, tierMinKey, h]

/-- The persisted tier list of the update action is sorted ascending by
threshold. -/
theorem final_tiers_sorted (reconciledTiers : List ParsedTier) :
    ((updateFinalTiers reconciledTiers).map storeParsedTier).Pairwise
      (fun a b => storedMinKey a ≤ storedMinKey b) := by
  rw [List.pairwise_map]
  have hs := sorted_insertionSortB parsedTierLe parsedTierLe_trans parsedTierLe_total
    reconciledTiers
  rw [updateFinalTiers]
  refine hs.imp ?_
  intro a b hab
  rw [storedMinKey_storeParsedTier, storedMinKey_storeParsedTier]
  have : tierMinKey a ≤ tierMinKey b := by simpa [parsedTierLe] using hab
  exact_mod_cast this

theorem tierMinKey_strip (tier : ParsedTier) :
    tierMinKey (stripDiscountId tier) = tierMinKey tier := rfl

/-- Stability of the persisted order: at every threshold, the persisted
tiers (ids aside) are exactly the submitted tiers with that threshold, in
submission order. -/
theorem final_tiers_stable (input : UpdateInput) (reconciledTiers : List ParsedTier)
    (hstrip : reconciledTiers.map stripDiscountId
      = (updateSortedTiers input).map stripDiscountId) (q : Int) :
    ((updateFinalTiers reconciledTiers).filter (fun t => decide (tierMinKey t = q))).map
        stripDiscountId
      = ((input.tiers.map parseTier).filter (fun t => decide (tierMinKey t = q))).map
          stripDiscountId := by
  have htied : ∀ a b : ParsedTier, decide (tierMinKey a = q) → decide (tierMinKey b = q) →
      parsedTierLe a b := by
    intro a b ha hb
    simp only [decide_eq_true_eq] at ha hb
    simp [parsedTierLe, ha, hb]
  have hcomp : ((fun t => decide (tierMinKey t = q)) ∘ stripDiscountId)
      = (fun t => decide (tierMinKey t = q)) := by
    funext t
    rfl
  have h1 := congrArg (List.filter (fun t => decide (tierMinKey t = q))) hstrip
  rw [List.filter_map, List.filter_map, hcomp] at h1
  rw [updateFinalTiers, filter_insertionSortB parsedTierLe _ htied reconciledTiers, h1,
    updateSortedTiers, filter_insertionSortB parsedTierLe _ htied (input.tiers.map parseTier)]

/-- **C5.** After every successful update, the written document carries the
updated rule at its original index with all other rules untouched; the
persisted tier list is sorted ascending by `min_quantity`; and the sort is
stable: at each threshold the tiers appear in their submitted order (only
their `discount_id` may have been filled in). -/
theorem updateRule_persisted_sorted (admin : Admin) (doc : Doc) (input : UpdateInput)
    (tableHandle : String)
    (hok : (updateRuleAction admin doc input tableHandle).1.ok = true) :
    ∃ ruleIndex reconciledTiers,
      findRuleIndex doc.discounts tableHandle = some ruleIndex ∧
      RemoteCall.setShopMetafield (updateWrittenDoc doc input ruleIndex reconciledTiers)
        ∈ (updateRuleAction admin doc input tableHandle).2 ∧
      (updateWrittenRule doc input ruleIndex reconciledTiers).tiers.Pairwise
        (fun a b => storedMinKey a ≤ storedMinKey b) ∧
      (∀ q : Int,
        ((updateFinalTiers reconciledTiers).filter (fun t => decide (tierMinKey t = q))).map
            stripDiscountId
          = ((input.tiers.map parseTier).filter (fun t => decide (tierMinKey t = q))).map
              stripDiscountId) ∧
      (updateWrittenDoc doc input ruleIndex reconciledTiers).discounts.length
        = doc.discounts.length ∧
      (∀ j, j ≠ ruleIndex →
        (updateWrittenDoc doc input ruleIndex reconciledTiers).discounts[j]?
          = doc.discounts[j]?) ∧
      (updateWrittenDoc doc input ruleIndex reconciledTiers).discounts[ruleIndex]?
        = some (updateWrittenRule doc input ruleIndex reconciledTiers) := by
  cases hval : updateValidationError input with
  | some errors =>
    rw [updateRuleAction, updateRuleActionWith, hval] at hok
    simp at hok
  | none =>
    cases hfind : findRuleIndex doc.discounts tableHandle with
    | none =>
      rw [updateRuleAction, updateRuleActionWith, hval, hfind] at hok
      simp at hok
    | some ruleIndex =>
      have hbound : ruleIndex < doc.discounts.length := by
        rw [findRuleIndex] at hfind
        obtain ⟨h, -⟩ := List.findIdx?_eq_some_iff_getElem.mp hfind
        exact h
      rw [updateRuleAction,
        updateRuleActionWith_eq reconcileTiers admin doc input tableHandle ruleIndex
          hval hfind] at hok ⊢
      rcases hloop : reconcileTiers admin (updateRuleCtx doc input ruleIndex)
          (updateSortedTiers input) [] with ⟨res, loopTrace⟩
      cases res with
      | error errors =>
        have hstep : updateRuleReconcile reconcileTiers admin doc input ruleIndex
            = (⟨false, errors⟩, loopTrace) := by
          rw [updateRuleReconcile, hloop]
        rw [hstep] at hok
        simp at hok
      | ok reconciledTiers =>
        have hstrip : reconciledTiers.map stripDiscountId
            = (updateSortedTiers input).map stripDiscountId := by
          have := reconcileTiers_ok_strip admin (updateRuleCtx doc input ruleIndex)
            (updateSortedTiers input) [] reconciledTiers (by rw [hloop])
          simpa using this
        have hstep : updateRuleReconcile reconcileTiers admin doc input ruleIndex
            = updateAfterLoop admin doc input ruleIndex reconciledTiers loopTrace := by
          rw [updateRuleReconcile, hloop]
        rw [hstep] at hok ⊢
        rcases hdel : deleteDiscountsLoop admin
            (updateRemovedDiscountIds doc ruleIndex reconciledTiers)
            with ⟨dres, deleteTrace⟩
        cases dres with
        | error errors =>
          have hstep2 : updateAfterLoop admin doc input ruleIndex reconciledTiers loopTrace
              = (⟨false, errors⟩, loopTrace ++ deleteTrace) := by
            rw [updateAfterLoop, hdel]
          rw [hstep2] at hok
          simp at hok
        | ok u =>
          have hstep2 : updateAfterLoop admin doc input ruleIndex reconciledTiers loopTrace
              = updateAfterDelete admin doc input ruleIndex reconciledTiers
                  loopTrace deleteTrace := by
            rw [updateAfterLoop, hdel]
          rw [hstep2] at hok ⊢
          rw [updateAfterDelete] at hok ⊢
          by_cases hshop :
              admin.shopSetResp (updateWrittenDoc doc input ruleIndex reconciledTiers) ≠ []
          · rw [if_pos hshop] at hok
            simp at hok
          · rw [if_neg hshop] at hok ⊢
            by_cases hpe : (recomputeProjections admin
                (updateWrittenDoc doc input ruleIndex reconciledTiers).discounts
                ((updateAffectedProductIds doc input ruleIndex).map ProductRef.str)).1 ≠ []
            · rw [if_pos hpe] at hok
              simp at hok
            · rw [if_neg hpe]
              refine ⟨ruleIndex, reconciledTiers, rfl, ?_, ?_, ?_, ?_, ?_, ?_⟩
              · show RemoteCall.setShopMetafield _ ∈
                  updateBaseTrace doc input ruleIndex reconciledTiers loopTrace deleteTrace ++ _
                refine List.mem_append_left _ ?_
                rw [updateBaseTrace]
                exact List.mem_append_right _ (List.mem_singleton_self _)
              · rw [updateWrittenRule]
                exact final_tiers_sorted reconciledTiers
              · exact final_tiers_stable input reconciledTiers hstrip
              · rw [updateWrittenDoc]
                exact List.length_set doc.discounts ruleIndex _
              · intro j hj
                rw [updateWrittenDoc]
                exact List.getElem?_set_ne (fun h => hj h.symm)
              · rw [updateWrittenDoc]
                exact List.getElem?_set_self hbound

/-- Witness for C5: a concrete successful update run satisfies the
sorted/stable/index-preserving persistence property. -/
theorem updateRule_persisted_sorted_witness :
    (updateRuleAction adminOk docFixA inputFixB "r1").1.ok = true ∧
    ∃ ruleIndex reconciledTiers,
      findRuleIndex docFixA.discounts "r1" = some ruleIndex ∧
      RemoteCall.setShopMetafield (updateWrittenDoc docFixA inputFixB ruleIndex reconciledTiers)
        ∈ (updateRuleAction adminOk docFixA inputFixB "r1").2 ∧
      (updateWrittenRule docFixA inputFixB ruleIndex reconciledTiers).tiers.Pairwise
        (fun a b => storedMinKey a ≤ storedMinKey b) ∧
      (∀ q : Int,
        ((updateFinalTiers reconciledTiers).filter (fun t => decide (tierMinKey t = q))).map
            stripDiscountId
          = ((inputFixB.tiers.map parseTier).filter (fun t => decide (tierMinKey t = q))).map
              stripDiscountId) ∧
      (updateWrittenDoc docFixA inputFixB ruleIndex reconciledTiers).discounts.length
        = docFixA.discounts.length ∧
      (∀ j, j ≠ ruleIndex →
        (updateWrittenDoc docFixA inputFixB ruleIndex reconciledTiers).discounts[j]?
          = docFixA.discounts[j]?) ∧
      (updateWrittenDoc docFixA inputFixB ruleIndex reconciledTiers).discounts[ruleIndex]?
        = some (updateWrittenRule docFixA inputFixB ruleIndex reconciledTiers) :=
  ⟨by decide, updateRule_persisted_sorted adminOk docFixA inputFixB "r1" (by decide)⟩

/-! ## C7: the create-rule / add-tier action -/

/-- Recognizer for remote discount creations in a trace. -/
def isCreateDiscountCall : RemoteCall → Bool
  | .createDiscount _ => true
  | _ => false

theorem createValidationErrors_eq_nil (t d : String) (m k : Option Int) (ids : List String) :
    createValidationErrors t d m k ids = []
      ↔ (t ≠ "" ∧ d ≠ "" ∧ (∃ q, m = some q ∧ 1 ≤ q) ∧
         (∃ q, k = some q ∧ 1 ≤ q ∧ q ≤ 100) ∧ ids ≠ []) := by
  rw [createValidationErrors.eq_def]
  cases m with
  | none => simp
  | some q =>
    cases k with
    | none => simp
    | some r =>
      by_cases ht : t = "" <;> by_cases hd : d = "" <;>
        by_cases hq : q < 1 <;> by_cases hr : r < 1 ∨ 100 < r <;>
          by_cases hi : ids = [] <;>
            simp [ht, hd, hq, hr, hi] <;> omega

theorem isCreate_createDeactivateTrace (doc : Doc) (p : CreateParsed) (i : Option String) :
    (createDeactivateTrace doc p i).filter isCreateDiscountCall = [] := by
  rw [createDeactivateTrace.eq_def]
  by_cases h : createExistingStatus doc p = "inactive"
  · rw [if_pos h]
    cases i with
    | none => rfl
    | some id => rfl
  · rw [if_neg h]
    rfl

theorem filter_isCreate_createBaseTrace (doc : Doc) (p : CreateParsed) (i : Option String) :
    (createBaseTrace doc p i).filter isCreateDiscountCall
      = [RemoteCall.createDiscount (createDiscountInputOf p)] := by
  rw [createBaseTrace, List.filter_append, List.filter_cons, isCreate_createDeactivateTrace]
  simp [isCreateDiscountCall]

theorem filter_isCreate_recompute (admin : Admin) (discounts : List Rule)
    (a : List ProductRef) :
    ((recomputeProjections admin discounts a).2).filter isCreateDiscountCall = [] := by
  rw [List.filter_eq_nil_iff]
  intro c hc
  obtain ⟨entries, rfl⟩ := mem_recompute_trace admin discounts a c hc
  simp [isCreateDiscountCall]

/-- The trace of the post-creation phase is the base trace, optionally
followed by the re-projection trace. -/
theorem createAfterCreate_trace (admin : Admin) (doc : Doc) (p : CreateParsed)
    (i : Option String) :
    (createAfterCreate admin doc p i).2 = createBaseTrace doc p i ∨
    (createAfterCreate admin doc p i).2
      = createBaseTrace doc p i ++
        (recomputeProjections admin (createNextDocOf doc p i).discounts
          ((createAffectedProductIds doc p).map ProductRef.str)).2 := by
  rw [createAfterCreate]
  by_cases hshop : admin.shopSetResp (createNextDocOf doc p i) ≠ []
  · rw [if_pos hshop]
    exact Or.inl rfl
  · rw [if_neg hshop]
    by_cases hproj : (recomputeProjections admin (createNextDocOf doc p i).discounts
        ((createAffectedProductIds doc p).map ProductRef.str)).1 ≠ []
    · rw [if_pos hproj]
      exact Or.inr rfl
    · rw [if_neg hproj]
      exact Or.inr rfl

theorem deactivate_not_mem_createBaseTrace (doc : Doc) (p : CreateParsed) (o : Option String)
    (hstatus : createExistingStatus doc p ≠ "inactive") (i : String) :
    RemoteCall.deactivateDiscount i ∉ createBaseTrace doc p o := by
  intro hmem
  rw [createBaseTrace] at hmem
  rcases List.mem_append.mp hmem with h | h
  · rcases List.mem_cons.mp h with h | h
    · simp at h
    · rw [createDeactivateTrace.eq_def, if_neg hstatus] at h
      simp at h
  · simp at h

/-- **C7.** The create action rejects exactly the inputs with an empty
(trimmed) title or discount title, a non-integer or non-positive minimum
quantity, a percent off outside `[1, 100]`, or an empty normalized product
set — collecting every violation and mutating nothing; on valid input it
issues exactly one remote discount creation; when that creation succeeds
the trace is the creation, the conditional deactivation and the document
write, optionally followed by the re-projection batches; the new discount
is deactivated exactly when a same-title rule exists and is inactive; a
same-title rule receives the appended tier and the replaced product set at
its original index with every other rule untouched, and with no same-title
rule a fresh active single-tier rule is appended; the re-projected set is
the union of the rule's previous and new product sets. -/
theorem createRule_spec (admin : Admin) (doc : Doc) (input : CreateInput) :
    (createErrorsOf (parseCreateInput input) = [] ↔
      ((parseCreateInput input).title ≠ "" ∧ (parseCreateInput input).discountTitle ≠ "" ∧
       (∃ q, (parseCreateInput input).minimumQuantity = some q ∧ 1 ≤ q) ∧
       (∃ q, (parseCreateInput input).percentOff = some q ∧ 1 ≤ q ∧ q ≤ 100) ∧
       (parseCreateInput input).normalizedProductIds ≠ [])) ∧
    (createErrorsOf (parseCreateInput input) ≠ [] →
      createRuleAction admin doc input
        = (⟨false, createErrorsOf (parseCreateInput input)⟩, [])) ∧
    (createErrorsOf (parseCreateInput input) = [] →
      (createRuleAction admin doc input).2.filter isCreateDiscountCall
        = [RemoteCall.createDiscount (createDiscountInputOf (parseCreateInput input))]) ∧
    (createErrorsOf (parseCreateInput input) = [] →
      (admin.createResp (createDiscountInputOf (parseCreateInput input))).userErrors = [] →
      (createRuleAction admin doc input).2
          = createBaseTrace doc (parseCreateInput input)
              (admin.createResp (createDiscountInputOf (parseCreateInput input))).discountId ∨
      (createRuleAction admin doc input).2
          = createBaseTrace doc (parseCreateInput input)
              (admin.createResp (createDiscountInputOf (parseCreateInput input))).discountId ++
            (recomputeProjections admin
              (createNextDocOf doc (parseCreateInput input)
                (admin.createResp
                  (createDiscountInputOf (parseCreateInput input))).discountId).discounts
              ((createAffectedProductIds doc (parseCreateInput input)).map
                ProductRef.str)).2) ∧
    (createErrorsOf (parseCreateInput input) = [] →
      (admin.createResp (createDiscountInputOf (parseCreateInput input))).userErrors = [] →
      createExistingStatus doc (parseCreateInput input) = "inactive" →
      ∀ i, (admin.createResp (createDiscountInputOf (parseCreateInput input))).discountId
          = some i →
        RemoteCall.deactivateDiscount i ∈ (createRuleAction admin doc input).2) ∧
    (createExistingStatus doc (parseCreateInput input) ≠ "inactive" →
      ∀ i, RemoteCall.deactivateDiscount i ∉ (createRuleAction admin doc input).2) ∧
    (∀ index t, createExistingIndex doc (parseCreateInput input) = some index →
      (createNextDiscountsOf doc (parseCreateInput input) t).length = doc.discounts.length ∧
      (∀ j, j ≠ index →
        (createNextDiscountsOf doc (parseCreateInput input) t)[j]? = doc.discounts[j]?) ∧
      ∃ r, (createNextDiscountsOf doc (parseCreateInput input) t)[index]? = some r ∧
        r.tiers = (doc.discounts.getD index emptyRule).tiers ++ [t] ∧
        r.products = (parseCreateInput input).normalizedProductIds.map ProductRef.str) ∧
    (createExistingIndex doc (parseCreateInput input) = none →
      ∀ t, createNextDiscountsOf doc (parseCreateInput input) t
        = doc.discounts ++
          [⟨(parseCreateInput input).title, "active",
            (parseCreateInput input).normalizedProductIds.map ProductRef.str, [t]⟩]) ∧
    (∀ i, i ∈ createAffectedProductIds doc (parseCreateInput input) ↔
      i ∈ createPreviousProductIds doc (parseCreateInput input) ∨
      i ∈ (parseCreateInput input).normalizedProductIds) := by
  refine ⟨?_, ?_, ?_, ?_, ?_, ?_, ?_, ?_, ?_⟩
  · exact createValidationErrors_eq_nil (parseCreateInput input).title
      (parseCreateInput input).discountTitle (parseCreateInput input).minimumQuantity
      (parseCreateInput input).percentOff (parseCreateInput input).normalizedProductIds
  · intro h
    rw [createRuleAction, if_pos h]
  · intro hval
    have hval' : ¬ createErrorsOf (parseCreateInput input) ≠ [] := by simp [hval]
    rw [createRuleAction, if_neg hval']
    by_cases huser :
        (admin.createResp (createDiscountInputOf (parseCreateInput input))).userErrors ≠ []
    · rw [if_pos huser]
      simp [isCreateDiscountCall]
    · rw [if_neg huser]
      rcases createAfterCreate_trace admin doc (parseCreateInput input)
          (admin.createResp (createDiscountInputOf (parseCreateInput input))).discountId
        with h | h <;> rw [h]
      · exact filter_isCreate_createBaseTrace doc (parseCreateInput input) _
      · rw [List.filter_append, filter_isCreate_createBaseTrace, filter_isCreate_recompute]
        rfl
  · intro hval huser
    have hval' : ¬ createErrorsOf (parseCreateInput input) ≠ [] := by simp [hval]
    have huser' : ¬ (admin.createResp
        (createDiscountInputOf (parseCreateInput input))).userErrors ≠ [] := by simp [huser]
    rw [createRuleAction, if_neg hval', if_neg huser']
    exact createAfterCreate_trace admin doc (parseCreateInput input) _
  · intro hval huser hstatus i hid
    have hval' : ¬ createErrorsOf (parseCreateInput input) ≠ [] := by simp [hval]
    have huser' : ¬ (admin.createResp
        (createDiscountInputOf (parseCreateInput input))).userErrors ≠ [] := by simp [huser]
    rw [createRuleAction, if_neg hval', if_neg huser']
    have hbase : RemoteCall.deactivateDiscount i ∈ createBaseTrace doc (parseCreateInput input)
        (admin.createResp (createDiscountInputOf (parseCreateInput input))).discountId := by
      rw [createBaseTrace, hid, createDeactivateTrace.eq_def, if_pos hstatus]
      exact List.mem_append_left _ (List.mem_cons_of_mem _ (List.mem_singleton_self _))
    rcases createAfterCreate_trace admin doc (parseCreateInput input)
        (admin.createResp (createDiscountInputOf (parseCreateInput input))).discountId
      with h | h <;> rw [h]
    · exact hbase
    · exact List.mem_append_left _ hbase
  · intro hstatus i hmem
    by_cases hbad : createErrorsOf (parseCreateInput input) ≠ []
    · rw [createRuleAction, if_pos hbad] at hmem
      simp at hmem
    · rw [createRuleAction, if_neg hbad] at hmem
      by_cases huser :
          (admin.createResp (createDiscountInputOf (parseCreateInput input))).userErrors ≠ []
      · rw [if_pos huser] at hmem
        simp at hmem
      · rw [if_neg huser] at hmem
        rcases createAfterCreate_trace admin doc (parseCreateInput input)
            (admin.createResp (createDiscountInputOf (parseCreateInput input))).discountId
          with h | h <;> rw [h] at hmem
        · exact deactivate_not_mem_createBaseTrace doc (parseCreateInput input) _ hstatus i hmem
        · rcases List.mem_append.mp hmem with h' | h'
          · exact deactivate_not_mem_createBaseTrace doc (parseCreateInput input) _ hstatus i h'
          · obtain ⟨entries, hentries⟩ := mem_recompute_trace admin _ _ _ h'
            simp at hentries
  · intro index t hindex
    have hlt : index < doc.discounts.length := by
      rw [createExistingIndex] at hindex
      obtain ⟨h, -⟩ := List.findIdx?_eq_some_iff_getElem.mp hindex
      exact h
    have hstep : createNextDiscountsOf doc (parseCreateInput input) t
        = doc.discounts.set index
            { doc.discounts.getD index emptyRule with
                title := (parseCreateInput input).title
                products := (parseCreateInput input).normalizedProductIds.map ProductRef.str
                status := if (doc.discounts.getD index emptyRule).status = "" then "active"
                  else (doc.discounts.getD index emptyRule).status
                tiers := (doc.discounts.getD index emptyRule).tiers ++ [t] } := by
      rw [createNextDiscountsOf, hindex]
    refine ⟨?_, ?_, ?_⟩
    · rw [hstep]
      exact List.length_set doc.discounts index _
    · intro j hj
      rw [hstep]
      exact List.getElem?_set_ne (fun h => hj h.symm)
    · exact ⟨_, by rw [hstep]; exact List.getElem?_set_self hlt, rfl, rfl⟩
  · intro hnone t
    rw [createNextDiscountsOf, hnone]
  · intro i
    rw [createAffectedProductIds, mem_dedupFirstSeen, List.mem_append]

/-- An inactive stored rule `r1` used to exercise the deactivation path. -/
def ruleFixInactive : Rule := ⟨"r1", "inactive", [.str prodGid1], [tierFixA]⟩

def docFixInactive : Doc := ⟨[ruleFixInactive]⟩

/-- A create request failing all validation checks. -/
def createFixBad : CreateInput := ⟨some "", some "", some "0", some "200", []⟩

/-- A valid create request for a fresh rule. -/
def createFixGood : CreateInput :=
  ⟨some "NewRule", some "Tier10", some "5", some "10", [.obj prodGid3]⟩

/-- A valid create request adding a tier to the existing rule `r1`. -/
def createFixExisting : CreateInput :=
  ⟨some "r1", some "T2", some "7", some "15", [.obj prodGid2]⟩

/-- Witness for C7: a rejected run mutates nothing; a valid run issues
exactly one creation; an add-tier run against an inactive rule deactivates
the new discount. -/
theorem createRule_spec_witness :
    createErrorsOf (parseCreateInput createFixBad) ≠ [] ∧
    createRuleAction adminOk docFixA createFixBad
      = (⟨false, createErrorsOf (parseCreateInput createFixBad)⟩, []) ∧
    createErrorsOf (parseCreateInput createFixGood) = [] ∧
    (createRuleAction adminOk docFixA createFixGood).2.filter isCreateDiscountCall
      = [RemoteCall.createDiscount (createDiscountInputOf (parseCreateInput createFixGood))] ∧
    RemoteCall.deactivateDiscount "dNew"
      ∈ (createRuleAction adminOk docFixInactive createFixExisting).2 :=
  ⟨by decide, (createRule_spec adminOk docFixA createFixBad).2.1 (by decide), by decide,
   (createRule_spec adminOk docFixA createFixGood).2.2.1 (by decide),
   (createRule_spec adminOk docFixInactive createFixExisting).2.2.2.2.1 (by decide) (by decide)
     (by decide) "dNew" (by decide)⟩

/-! ## C8: the soft configuration decoder -/

/-- **C8.** The decoder is a total function (so nothing can escape to the
caller) that collapses every degenerate input — absent/empty value, a
string `JSON.parse` rejects, a parse result that is not an object, or an
object whose `discounts` field is missing or not an array — to
`\x7bdiscounts: []\x7d`, and returns an object whose `discounts` field is
an array unchanged. -/
theorem parseDiscountConfig_spec :
    parseDiscountConfig .absentOrEmpty = emptyConfig ∧
    parseDiscountConfig .invalidJson = emptyConfig ∧
    (∀ j : Json, (∀ fields, j ≠ .obj fields) →
      parseDiscountConfig (.validJson j) = emptyConfig) ∧
    (∀ fields, ¬ isArrayField (getField fields "discounts") →
      parseDiscountConfig (.validJson (.obj fields)) = emptyConfig) ∧
    (∀ fields, isArrayField (getField fields "discounts") →
      parseDiscountConfig (.validJson (.obj fields)) = .obj fields) ∧
    (∀ o : Option Json, isArrayField o = true ↔ ∃ l, o = some (Json.arr l)) := by
  refine ⟨rfl, rfl, ?_, ?_, ?_, ?_⟩
  · intro j h
    cases j with
    | obj fields => exact absurd rfl (h fields)
    | null => rfl
    | bool b => rfl
    | num q => rfl
    | str s => rfl
    | arr l => rfl
  · intro fields h
    show (if isArrayField (getField fields "discounts") then Json.obj fields else emptyConfig)
      = emptyConfig
    rw [if_neg h]
  · intro fields h
    show (if isArrayField (getField fields "discounts") then Json.obj fields else emptyConfig)
      = Json.obj fields
    rw [if_pos h]
  · intro o
    cases o with
    | none => simp [isArrayField]
    | some j => cases j <;> simp [isArrayField]

/-- Witness for C8: a numeric value, an object without `discounts`, and an
object with an array `discounts` field. -/
theorem parseDiscountConfig_spec_witness :
    parseDiscountConfig (.validJson (.num 0)) = emptyConfig ∧
    parseDiscountConfig (.validJson (.obj [("other", .null)])) = emptyConfig ∧
    parseDiscountConfig (.validJson (.obj [("discounts", .arr [.null])]))
      = .obj [("discounts", .arr [.null])] :=
  ⟨parseDiscountConfig_spec.2.2.1 (.num 0) (fun fields h => Json.noConfusion h),
   parseDiscountConfig_spec.2.2.2.1 [("other", .null)] (by decide),
   parseDiscountConfig_spec.2.2.2.2.1 [("discounts", .arr [.null])] (by decide)⟩

/-! ## C9: batching of the projection writes -/

/-- **C9.** The projection recompute writes the per-product entries in
sequential chunks: the trace is exactly the chunk list in order, every
chunk holds at most `MAX_METAFIELDS_SET = 25` entries, the chunks
concatenate back to the full entry list (nothing dropped or duplicated),
and the returned error list is the concatenation of every chunk's user
errors — so an erroring batch never prevents the later batches. -/
theorem recompute_batching_spec (admin : Admin) (discounts : List Rule)
    (affectedProductIds : List ProductRef) :
    MAX_METAFIELDS_SET = 25 ∧
    (recomputeProjections admin discounts affectedProductIds).2
      = (chunkArray (projectionMetafields discounts (normalizeProductIds affectedProductIds))
          MAX_METAFIELDS_SET).map RemoteCall.setProductMetafields ∧
    (∀ entries, RemoteCall.setProductMetafields entries
        ∈ (recomputeProjections admin discounts affectedProductIds).2 →
      entries.length ≤ MAX_METAFIELDS_SET) ∧
    (chunkArray (projectionMetafields discounts (normalizeProductIds affectedProductIds))
        MAX_METAFIELDS_SET).flatten
      = projectionMetafields discounts (normalizeProductIds affectedProductIds) ∧
    (recomputeProjections admin discounts affectedProductIds).1
      = ((chunkArray (projectionMetafields discounts (normalizeProductIds affectedProductIds))
          MAX_METAFIELDS_SET).map admin.productSetResp).flatten := by
  have h25 : MAX_METAFIELDS_SET = 24 + 1 := rfl
  refine ⟨rfl, ?_, ?_, ?_, ?_⟩
  · rw [recomputeProjections_eq]
  · intro entries hmem
    rw [recomputeProjections_eq] at hmem
    obtain ⟨c, hc, hce⟩ := List.mem_map.mp hmem
    obtain rfl : c = entries := by injection hce
    rw [h25] at hc ⊢
    exact length_le_of_mem_chunkArray 24 _ hc
  · rw [h25]
    exact flatten_chunkArray 24 _
  · rw [recomputeProjections_eq]

/-- Witness for C9: a one-product recompute issues one batch, of size
within the limit. -/
theorem recompute_batching_spec_witness :
    RemoteCall.setProductMetafields (projectionMetafields docFixA.discounts [prodGid1])
      ∈ (recomputeProjections adminOk docFixA.discounts [ProductRef.str prodGid1]).2 ∧
    (projectionMetafields docFixA.discounts [prodGid1]).length ≤ MAX_METAFIELDS_SET :=
  ⟨by decide,
   (recompute_batching_spec adminOk docFixA.discounts [ProductRef.str prodGid1]).2.2.1
     (projectionMetafields docFixA.discounts [prodGid1]) (by decide)⟩

/-- Witness for C2: the projected entry for product 1 in the concrete
store indeed comes from a visited valid tier. -/
theorem buildProjection_sorted_max_witness :
    (⟨5, 10⟩ : NormTier) ∈ buildProductTierProjection docFixA.discounts prodGid1 ∧
    (⟨5, 10⟩ : NormTier) ∈ validProjectionTiers docFixA.discounts prodGid1 :=
  ⟨by decide,
   ((buildProjection_sorted_max docFixA.discounts prodGid1).2.1 ⟨5, 10⟩ (by decide)).1⟩

end QuantityBreaks
